import Mathlib

/-!
Verification development for the json-xsd-to-xml repository.

This file shallowly embeds the core of the library:
  * the schema data model (`SchemaModel`, `ElementDef`, `ComplexTypeDef`, ...)
    from src/xsd/types.ts,
  * the schema walker (src/xsd/walker.ts),
  * the JSON→XML builder (src/xml/builder.ts, the version using the
    case-insensitive `lookupCI` helper from src/utils.ts),
  * the strict-mode validator (src/validation/json-validator.ts),
  * the recursive XSD parser's merge/cycle logic (src/xsd/parser.ts).

Boundaries abstracted, mirroring the spec's §6 external-interface boundary:
file reading and XML tokenizing (fast-xml-parser) are replaced by a finite
`FileSystem` mapping resolved source identifiers to already-tokenized
`XsdFile` records, and XML serialization (xmlbuilder2's `.end`) is replaced
by returning the built node tree (`XmlContent`) itself.  JSON numbers are
modelled as integers; no claim depends on fractional number formatting.
JavaScript objects cannot carry duplicate keys, so JSON objects are
association lists (`List (String × Json)`) whose key order models JS
insertion/iteration order.
-/

/-- JSON values (src/types.ts `JsonValue`).  `null` covers both JS `null`
and the absent/`undefined` distinction is handled by `Option Json` at
lookup sites, exactly as the TypeScript code distinguishes `undefined`
(key absent) from `null` (key present, null value). -/
inductive Json where
  | null : Json
  | str (s : String) : Json
  | num (n : Int) : Json
  | bool (b : Bool) : Json
  | arr (items : List Json) : Json
  | obj (fields : List (String × Json)) : Json

/- JavaScript `String(value)` coercion, restricted to the values the
builder ever passes to it.  Arrays stringify via `Array.prototype.join(",")`
with null items rendered as the empty string; plain objects render as
"[object Object]". -/
mutual
def jsToString : Json → String
  | Json.null => "null"
  | Json.str s => s
  | Json.num n => toString n
  | Json.bool b => cond b "true" "false"
  | Json.arr items => jsArrJoin items
  | Json.obj _ => "[object Object]"
def jsArrJoin : List Json → String
  | [] => ""
  | [x] => jsArrItem x
  | x :: y :: rest => jsArrItem x ++ "," ++ jsArrJoin (y :: rest)
def jsArrItem : Json → String
  | Json.null => ""
  | v => jsToString v
end

/-- Minimal escaping used by `jsonStringify` (backslash and double quote). -/
def jsEscape (s : String) : String :=
  String.mk (s.toList.foldr (fun c acc =>
    if c = '"' then '\\' :: '"' :: acc
    else if c = '\\' then '\\' :: '\\' :: acc
    else c :: acc) [])

/- JavaScript `JSON.stringify`, used by the builder only for the defensive
"array inside wildcard content" case. -/
mutual
def jsonStringify : Json → String
  | Json.null => "null"
  | Json.str s => "\"" ++ jsEscape s ++ "\""
  | Json.num n => toString n
  | Json.bool b => cond b "true" "false"
  | Json.arr items => "[" ++ jsonStringifyList items ++ "]"
  | Json.obj fields => "\x7b" ++ jsonStringifyFields fields ++ "\x7d"
def jsonStringifyList : List Json → String
  | [] => ""
  | [x] => jsonStringify x
  | x :: y :: rest => jsonStringify x ++ "," ++ jsonStringifyList (y :: rest)
def jsonStringifyFields : List (String × Json) → String
  | [] => ""
  | [(k, v)] => "\"" ++ jsEscape k ++ "\":" ++ jsonStringify v
  | (k, v) :: p :: rest =>
      "\"" ++ jsEscape k ++ "\":" ++ jsonStringify v ++ "," ++
        jsonStringifyFields (p :: rest)
end

/-! ### Association-list model of JavaScript `Map` (insertion-ordered) -/

/-- JS `Map.prototype.get`: the binding of the first (and, for maps built
with `mset`, only) pair with the given key. -/
def mget {α : Type} (m : List (String × α)) (k : String) : Option α :=
  (m.find? (fun p => p.1 == k)).map (fun p => p.2)

/-- JS `Map.prototype.has`. -/
def mhas {α : Type} (m : List (String × α)) (k : String) : Bool :=
  (m.find? (fun p => p.1 == k)).isSome

/-- JS `Map.prototype.set`: replaces the value in place when the key is
already bound (keeping its position in iteration order), appends otherwise. -/
def mset {α : Type} (m : List (String × α)) (k : String) (v : α) :
    List (String × α) :=
  if mhas m k then m.map (fun p => if p.1 == k then (k, v) else p)
  else m ++ [(k, v)]

/-- Key-uniqueness of an association-list map. -/
def keysNodup {α : Type} (m : List (String × α)) : Prop :=
  (m.map (fun p => p.1)).Nodup

/-! ### Schema data model (src/xsd/types.ts) -/

inductive Compositor where
  | sequence | all | choice
deriving DecidableEq

inductive AttrUse where
  | required | optional | prohibited
deriving DecidableEq

structure AttributeDef where
  name : String
  type : String
  use : AttrUse
  default : Option String
  fixed : Option String
deriving DecidableEq

structure SimpleTypeDef where
  name : String
  base : String
deriving DecidableEq

/-- Occurrence bound: a number or the literal "unbounded". -/
inductive Occurs where
  | bounded (n : Int) | unbounded
deriving DecidableEq

/- `ElementDef` and `ComplexTypeDef` are mutually recursive through
inline complex types.  The TS `namespace` field is always `undefined`
in the parser and is dropped. -/
mutual
inductive ElementDef where
  | mk (name : String) (typeName : Option String)
      (inlineComplexType : Option ComplexTypeDef) (minOccurs : Int)
      (maxOccurs : Occurs) (attributes : List AttributeDef)
      (children : List ElementDef) (isArray : Bool) : ElementDef
inductive ComplexTypeDef where
  | mk (name : String) (compositor : Compositor) (elements : List ElementDef)
      (attributes : List AttributeDef) (hasTextContent : Bool)
      (extendsBase : Option String) (hasWildcard : Bool) : ComplexTypeDef
end

@[simp] def ElementDef.name : ElementDef → String
  | .mk n _ _ _ _ _ _ _ => n
@[simp] def ElementDef.typeName : ElementDef → Option String
  | .mk _ t _ _ _ _ _ _ => t
@[simp] def ElementDef.inlineComplexType : ElementDef → Option ComplexTypeDef
  | .mk _ _ i _ _ _ _ _ => i
@[simp] def ElementDef.minOccurs : ElementDef → Int
  | .mk _ _ _ mn _ _ _ _ => mn
@[simp] def ElementDef.maxOccurs : ElementDef → Occurs
  | .mk _ _ _ _ mx _ _ _ => mx
@[simp] def ElementDef.attributes : ElementDef → List AttributeDef
  | .mk _ _ _ _ _ a _ _ => a
@[simp] def ElementDef.children : ElementDef → List ElementDef
  | .mk _ _ _ _ _ _ c _ => c
@[simp] def ElementDef.isArray : ElementDef → Bool
  | .mk _ _ _ _ _ _ _ b => b

@[simp] def ComplexTypeDef.name : ComplexTypeDef → String
  | .mk n _ _ _ _ _ _ => n
@[simp] def ComplexTypeDef.compositor : ComplexTypeDef → Compositor
  | .mk _ c _ _ _ _ _ => c
@[simp] def ComplexTypeDef.elements : ComplexTypeDef → List ElementDef
  | .mk _ _ e _ _ _ _ => e
@[simp] def ComplexTypeDef.attributes : ComplexTypeDef → List AttributeDef
  | .mk _ _ _ a _ _ _ => a
@[simp] def ComplexTypeDef.hasTextContent : ComplexTypeDef → Bool
  | .mk _ _ _ _ t _ _ => t
@[simp] def ComplexTypeDef.extendsBase : ComplexTypeDef → Option String
  | .mk _ _ _ _ _ e _ => e
@[simp] def ComplexTypeDef.hasWildcard : ComplexTypeDef → Bool
  | .mk _ _ _ _ _ _ w => w

/-- Resolved, merged schema model (src/xsd/types.ts `SchemaModel`). -/
structure SchemaModel where
  rootElement : String
  elements : List (String × ElementDef)
  complexTypes : List (String × ComplexTypeDef)
  simpleTypes : List (String × SimpleTypeDef)
  targetNamespace : Option String

/-! ### Schema walker (src/xsd/walker.ts) -/

/-- Built-in XSD simple types that map to text content (`XS_SIMPLE_TYPES`). -/
def XS_SIMPLE_TYPES : List String :=
  ["xs:string", "xs:integer", "xs:int", "xs:long", "xs:short", "xs:decimal",
   "xs:float", "xs:double", "xs:boolean", "xs:date", "xs:time", "xs:dateTime",
   "xs:duration", "xs:anyURI", "xs:base64Binary", "xs:hexBinary", "xs:token",
   "xs:normalizedString", "xs:positiveInteger", "xs:nonNegativeInteger",
   "xs:negativeInteger", "xs:nonPositiveInteger", "xs:unsignedInt",
   "xs:unsignedLong", "xs:unsignedShort", "xs:byte", "xs:unsignedByte",
   "xs:ID", "xs:IDREF", "xs:NMTOKEN", "xs:Name", "xs:QName", "xs:anyType"]

/-- Walker `lookupElement`. -/
def lookupElement (model : SchemaModel) (name : String) : Option ElementDef :=
  mget model.elements name

/-- Walker `lookupComplexType`. -/
def lookupComplexType (model : SchemaModel) (name : String) :
    Option ComplexTypeDef :=
  mget model.complexTypes name

/-- Walker `resolveComplexTypeForElement`: inline type first, then lookup by
type name (a JS-falsy empty string behaves like an absent name), else none. -/
def resolveComplexTypeForElement (model : SchemaModel) (el : ElementDef) :
    Option ComplexTypeDef :=
  match el.inlineComplexType with
  | some ict => some ict
  | none =>
    match el.typeName with
    | some t => if t = "" then none else mget model.complexTypes t
    | none => none

/-- Walker `isSimpleType`. -/
def isSimpleType (model : SchemaModel) (typeName : Option String) : Bool :=
  match typeName with
  | none => true
  | some t =>
    if t = "" then true
    else if XS_SIMPLE_TYPES.contains t then true
    else mhas model.simpleTypes t

/-! Termination measure for the `extends`-chain walkers: each recursive step
adds the current type's name to `visited`, and every base type reached by a
step is a value of the `complexTypes` map, so the number of map-value names
not yet visited strictly shrinks (up to the one possible initial inline type,
accounted for by the `+1` indicator). -/

/-- Names of all complex types stored as values of the model's map. -/
def ctValNames (model : SchemaModel) : List String :=
  model.complexTypes.map (fun p => p.2.name)

/-- Number of complex-type value names not yet visited. -/
def unresolvedCount (model : SchemaModel) (visited : List String) : Nat :=
  ((ctValNames model).toFinset \ visited.toFinset).card

lemma mget_mem {α : Type} {m : List (String × α)} {k : String} {v : α}
    (h : mget m k = some v) : (k, v) ∈ m := by
  unfold mget at h
  cases hf : m.find? (fun p => p.1 == k) with
  | none => simp [hf] at h
  | some p =>
    simp [hf] at h
    have hp := List.mem_of_find?_eq_some hf
    have hk := List.find?_some hf
    obtain ⟨k', v'⟩ := p
    simp at hk h
    subst hk; subst h; exact hp

lemma mget_name_mem {model : SchemaModel} {b : String} {ct : ComplexTypeDef}
    (h : mget model.complexTypes b = some ct) : ct.name ∈ ctValNames model := by
  have := mget_mem h
  exact List.mem_map.2 ⟨(b, ct), this, rfl⟩

lemma unresolvedCount_lt {model : SchemaModel} {x : String}
    {visited : List String} (h1 : x ∉ visited) (h2 : x ∈ ctValNames model) :
    unresolvedCount model (x :: visited) < unresolvedCount model visited := by
  unfold unresolvedCount
  have hsub : (ctValNames model).toFinset \ (x :: visited).toFinset ⊆
      (ctValNames model).toFinset \ visited.toFinset := by
    intro a ha
    simp only [Finset.mem_sdiff, List.mem_toFinset, List.mem_cons] at ha ⊢
    exact ⟨ha.1, fun hm => ha.2 (Or.inr hm)⟩
  refine Finset.card_lt_card ((Finset.ssubset_iff_of_subset hsub).2 ⟨x, ?_, ?_⟩)
  · simp only [Finset.mem_sdiff, List.mem_toFinset]
    exact ⟨h2, h1⟩
  · simp

lemma unresolvedCount_le_of_subset {model : SchemaModel}
    {v v' : List String} (h : v ⊆ v') :
    unresolvedCount model v' ≤ unresolvedCount model v := by
  unfold unresolvedCount
  refine Finset.card_le_card ?_
  intro a ha
  simp only [Finset.mem_sdiff, List.mem_toFinset] at ha ⊢
  exact ⟨ha.1, fun hm => ha.2 (h hm)⟩

lemma unresolvedCount_cons_eq {model : SchemaModel} {x : String}
    {visited : List String} (h : x ∉ ctValNames model) :
    unresolvedCount model (x :: visited) = unresolvedCount model visited := by
  unfold unresolvedCount
  congr 1
  ext a
  simp only [Finset.mem_sdiff, List.mem_toFinset, List.mem_cons]
  constructor
  · rintro ⟨ha, hn⟩; exact ⟨ha, fun hm => hn (Or.inr hm)⟩
  · rintro ⟨ha, hn⟩
    refine ⟨ha, ?_⟩
    rintro (rfl | hm)
    · exact h ha
    · exact hn hm

/-- Walker `resolveAllElements`: recursively resolves element children along
the `xs:extension` chain, base first, guarded by the `visited` name set. -/
def resolveAllElements (model : SchemaModel) (visited : List String)
    (ct : ComplexTypeDef) : List ElementDef :=
  if hv : ct.name ∈ visited then ct.elements
  else
    match ct.extendsBase with
    | none => ct.elements
    | some b =>
      match hb : mget model.complexTypes b with
      | none => ct.elements
      | some baseCt =>
        resolveAllElements model (ct.name :: visited) baseCt ++ ct.elements
termination_by
  unresolvedCount model visited * 2 +
    (if ct.name ∈ ctValNames model then 0 else 1)
decreasing_by
  have hbn := mget_name_mem hb
  by_cases hn : ct.name ∈ ctValNames model
  · have hlt := unresolvedCount_lt hv hn
    rw [if_pos hbn, if_pos hn]
    omega
  · have heq := @unresolvedCount_cons_eq model ct.name visited hn
    rw [if_pos hbn, if_neg hn, heq]
    omega

/-- Walker `resolveAllAttributes`: same chain walk for attributes. -/
def resolveAllAttributes (model : SchemaModel) (visited : List String)
    (ct : ComplexTypeDef) : List AttributeDef :=
  if hv : ct.name ∈ visited then ct.attributes
  else
    match ct.extendsBase with
    | none => ct.attributes
    | some b =>
      match hb : mget model.complexTypes b with
      | none => ct.attributes
      | some baseCt =>
        resolveAllAttributes model (ct.name :: visited) baseCt ++ ct.attributes
termination_by
  unresolvedCount model visited * 2 +
    (if ct.name ∈ ctValNames model then 0 else 1)
decreasing_by
  have hbn := mget_name_mem hb
  by_cases hn : ct.name ∈ ctValNames model
  · have hlt := unresolvedCount_lt hv hn
    rw [if_pos hbn, if_pos hn]
    omega
  · have heq := @unresolvedCount_cons_eq model ct.name visited hn
    rw [if_pos hbn, if_neg hn, heq]
    omega

/-- Walker `resolveHasWildcard`: true when the type or any ancestor along
`xs:extension` directly declares `xs:any`. -/
def resolveHasWildcard (model : SchemaModel) (visited : List String)
    (ct : ComplexTypeDef) : Bool :=
  if ct.hasWildcard then true
  else
    match ct.extendsBase with
    | none => false
    | some b =>
      if hv : ct.name ∈ visited then false
      else
        match hb : mget model.complexTypes b with
        | none => false
        | some baseCt => resolveHasWildcard model (ct.name :: visited) baseCt
termination_by
  unresolvedCount model visited * 2 +
    (if ct.name ∈ ctValNames model then 0 else 1)
decreasing_by
  have hbn := mget_name_mem hb
  by_cases hn : ct.name ∈ ctValNames model
  · have hlt := unresolvedCount_lt hv hn
    rw [if_pos hbn, if_pos hn]
    omega
  · have heq := @unresolvedCount_cons_eq model ct.name visited hn
    rw [if_pos hbn, if_neg hn, heq]
    omega

/-- Walker `getAttributesForElement`. -/
def getAttributesForElement (model : SchemaModel) (el : ElementDef) :
    List AttributeDef :=
  match resolveComplexTypeForElement model el with
  | none => el.attributes
  | some ct => resolveAllAttributes model [] ct

/-- Walker `getChildElementsForElement`. -/
def getChildElementsForElement (model : SchemaModel) (el : ElementDef) :
    List ElementDef :=
  match resolveComplexTypeForElement model el with
  | none => el.children
  | some ct => resolveAllElements model [] ct

/-- Walker `hasWildcardForElement`. -/
def hasWildcardForElement (model : SchemaModel) (el : ElementDef) : Bool :=
  match resolveComplexTypeForElement model el with
  | none => false
  | some ct => resolveHasWildcard model [] ct

/-- Names visited by one `resolveAllElements` chain walk, in order, with the
identical stopping rules.  Used to express when a cycle reaches back to a
given type. -/
def chainNames (model : SchemaModel) (visited : List String)
    (ct : ComplexTypeDef) : List String :=
  if hv : ct.name ∈ visited then []
  else
    match ct.extendsBase with
    | none => [ct.name]
    | some b =>
      match hb : mget model.complexTypes b with
      | none => [ct.name]
      | some baseCt => ct.name :: chainNames model (ct.name :: visited) baseCt
termination_by
  unresolvedCount model visited * 2 +
    (if ct.name ∈ ctValNames model then 0 else 1)
decreasing_by
  have hbn := mget_name_mem hb
  by_cases hn : ct.name ∈ ctValNames model
  · have hlt := unresolvedCount_lt hv hn
    rw [if_pos hbn, if_pos hn]
    omega
  · have heq := @unresolvedCount_cons_eq model ct.name visited hn
    rw [if_pos hbn, if_neg hn, heq]
    omega

/-- Unconditional unfolding equation for `resolveAllElements`. -/
lemma resolveAllElements_step (model : SchemaModel) (visited : List String)
    (ct : ComplexTypeDef) :
    resolveAllElements model visited ct =
      if ct.name ∈ visited then ct.elements
      else
        match ct.extendsBase with
        | none => ct.elements
        | some b =>
          match mget model.complexTypes b with
          | none => ct.elements
          | some baseCt =>
            resolveAllElements model (ct.name :: visited) baseCt ++
              ct.elements := by
  rw [resolveAllElements.eq_def]
  by_cases hv : ct.name ∈ visited
  · rw [dif_pos hv, if_pos hv]
  · rw [dif_neg hv, if_neg hv]
    cases hext : ct.extendsBase with
    | none => rfl
    | some b =>
      split
      next heq => rfl
      next baseCt heq =>
        injection heq with heq3
        subst heq3
        split
        next heq2 => rw [heq2]
        next bc heq2 => rw [heq2]

/-- Unconditional unfolding equation for `resolveAllAttributes`. -/
lemma resolveAllAttributes_step (model : SchemaModel) (visited : List String)
    (ct : ComplexTypeDef) :
    resolveAllAttributes model visited ct =
      if ct.name ∈ visited then ct.attributes
      else
        match ct.extendsBase with
        | none => ct.attributes
        | some b =>
          match mget model.complexTypes b with
          | none => ct.attributes
          | some baseCt =>
            resolveAllAttributes model (ct.name :: visited) baseCt ++
              ct.attributes := by
  rw [resolveAllAttributes.eq_def]
  by_cases hv : ct.name ∈ visited
  · rw [dif_pos hv, if_pos hv]
  · rw [dif_neg hv, if_neg hv]
    cases hext : ct.extendsBase with
    | none => rfl
    | some b =>
      split
      next heq => rfl
      next baseCt heq =>
        injection heq with heq3
        subst heq3
        split
        next heq2 => rw [heq2]
        next bc heq2 => rw [heq2]

/-- Unconditional unfolding equation for `resolveHasWildcard`. -/
lemma resolveHasWildcard_step (model : SchemaModel) (visited : List String)
    (ct : ComplexTypeDef) :
    resolveHasWildcard model visited ct =
      if ct.hasWildcard then true
      else
        match ct.extendsBase with
        | none => false
        | some b =>
          if ct.name ∈ visited then false
          else
            match mget model.complexTypes b with
            | none => false
            | some baseCt =>
              resolveHasWildcard model (ct.name :: visited) baseCt := by
  rw [resolveHasWildcard.eq_def]
  by_cases hw : ct.hasWildcard
  · rw [if_pos hw, if_pos hw]
  · rw [if_neg hw, if_neg hw]
    split
    next heq => rfl
    next b heq =>
      by_cases hv : ct.name ∈ visited
      · rw [dif_pos hv, if_pos hv]
      · rw [dif_neg hv, if_neg hv]
        split
        next heq2 => rw [heq2]
        next bc heq2 => rw [heq2]

/-- Unconditional unfolding equation for `chainNames`. -/
lemma chainNames_step (model : SchemaModel) (visited : List String)
    (ct : ComplexTypeDef) :
    chainNames model visited ct =
      if ct.name ∈ visited then []
      else
        match ct.extendsBase with
        | none => [ct.name]
        | some b =>
          match mget model.complexTypes b with
          | none => [ct.name]
          | some baseCt =>
            ct.name :: chainNames model (ct.name :: visited) baseCt := by
  rw [chainNames.eq_def]
  by_cases hv : ct.name ∈ visited
  · rw [dif_pos hv, if_pos hv]
  · rw [dif_neg hv, if_neg hv]
    cases hext : ct.extendsBase with
    | none => rfl
    | some b =>
      split
      next heq => rfl
      next baseCt heq =>
        injection heq with heq3
        subst heq3
        split
        next heq2 => rw [heq2]
        next bc heq2 => rw [heq2]

/-- The chain walk only depends on the membership view of `visited`. -/
lemma resolveAllElements_congr (model : SchemaModel) (v₁ : List String)
    (ct : ComplexTypeDef) :
    ∀ v₂ : List String, (∀ y : String, y ∈ v₁ ↔ y ∈ v₂) →
      resolveAllElements model v₁ ct = resolveAllElements model v₂ ct := by
  induction v₁, ct using resolveAllElements.induct model with
  | case1 visited ct hmem =>
    intro v₂ hiff
    rw [resolveAllElements_step, resolveAllElements_step,
      if_pos hmem, if_pos ((hiff _).1 hmem)]
  | case2 visited ct hmem hext =>
    intro v₂ hiff
    rw [resolveAllElements_step, resolveAllElements_step,
      if_neg hmem, if_neg (fun h => hmem ((hiff _).2 h)), hext]
  | case3 visited ct hmem t hext hget =>
    intro v₂ hiff
    rw [resolveAllElements_step, resolveAllElements_step,
      if_neg hmem, if_neg (fun h => hmem ((hiff _).2 h)), hext]
    simp only [hget]
  | case4 visited ct hmem t hext baseCt hget ih =>
    intro v₂ hiff
    rw [resolveAllElements_step, resolveAllElements_step,
      if_neg hmem, if_neg (fun h => hmem ((hiff _).2 h)), hext]
    simp only [hget]
    rw [ih (ct.name :: v₂) (by intro y; simp [hiff y])]

/-- Adding a name that the chain from `ct` never visits to the visited set
does not change the resolved child list. -/
lemma resolveAllElements_cons_of_not_mem_chain (model : SchemaModel)
    (x : String) (visited : List String) (ct : ComplexTypeDef) :
    x ∉ chainNames model visited ct →
      resolveAllElements model (x :: visited) ct =
        resolveAllElements model visited ct := by
  induction visited, ct using chainNames.induct model with
  | case1 visited ct hmem =>
    intro _
    rw [resolveAllElements_step, resolveAllElements_step, if_pos hmem,
      if_pos (List.mem_cons_of_mem x hmem)]
  | case2 visited ct hmem hext =>
    intro hx
    rw [chainNames_step, if_neg hmem, hext] at hx
    simp only [List.mem_singleton] at hx
    have hx2 : ct.name ∉ x :: visited := by
      intro h
      rcases List.mem_cons.1 h with h | h
      · exact hx h.symm
      · exact hmem h
    rw [resolveAllElements_step, resolveAllElements_step, if_neg hmem,
      if_neg hx2, hext]
  | case3 visited ct hmem t hext hget =>
    intro hx
    rw [chainNames_step, if_neg hmem, hext] at hx
    simp only [hget, List.mem_singleton] at hx
    have hx2 : ct.name ∉ x :: visited := by
      intro h
      rcases List.mem_cons.1 h with h | h
      · exact hx h.symm
      · exact hmem h
    rw [resolveAllElements_step, resolveAllElements_step, if_neg hmem,
      if_neg hx2, hext]
    simp only [hget]
  | case4 visited ct hmem t hext baseCt hget ih =>
    intro hx
    rw [chainNames_step, if_neg hmem, hext] at hx
    simp only [hget, List.mem_cons] at hx
    push_neg at hx
    obtain ⟨hx1, hx2⟩ := hx
    have hcn : ct.name ∉ x :: visited := by
      intro h
      rcases List.mem_cons.1 h with h | h
      · exact hx1 h.symm
      · exact hmem h
    rw [resolveAllElements_step, resolveAllElements_step, if_neg hmem,
      if_neg hcn, hext]
    simp only [hget]
    have hswap : resolveAllElements model (ct.name :: x :: visited) baseCt =
        resolveAllElements model (x :: ct.name :: visited) baseCt := by
      apply resolveAllElements_congr
      intro y
      simp only [List.mem_cons]
      tauto
    rw [hswap, ih hx2]

/-! ### Case-insensitive lookup (src/utils.ts) -/

/-- JS `String.prototype.toLowerCase`, modelled character-wise with
`Char.toLower` (adequate for the ASCII names schemas use; written via the
character list so that concrete instances reduce definitionally). -/
def strLower (s : String) : String :=
  String.mk (s.data.map Char.toLower)

/-- `lookupCI`: exact own-property match first, then the first
case-insensitive key match in object iteration order. -/
def lookupCI (fields : List (String × Json)) (name : String) : Option Json :=
  match fields.lookup name with
  | some v => some v
  | none =>
    (fields.find? (fun p => strLower p.1 == strLower name)).map (fun p => p.2)

/-- `lowerSet`: lowercased names for case-insensitive membership checks. -/
def lowerSet (names : List String) : List String :=
  names.map (fun n => strLower n)

lemma lookup_mem {β : Type} {l : List (String × β)} {k : String} {v : β}
    (h : l.lookup k = some v) : (k, v) ∈ l := by
  induction l with
  | nil => simp [List.lookup] at h
  | cons p rest ih =>
    obtain ⟨a, b⟩ := p
    rw [List.lookup] at h
    by_cases hk : k == a
    · rw [hk] at h
      simp only [Option.some.injEq] at h
      subst h
      have hka : k = a := by simpa using hk
      subst hka
      exact List.mem_cons_self _ _
    · have hk2 : (k == a) = false := by simpa using hk
      rw [hk2] at h
      exact List.mem_cons_of_mem _ (ih h)

lemma sizeOf_snd_lt {l : List (String × Json)} {k : String} {v : Json}
    (h : (k, v) ∈ l) : sizeOf v < sizeOf l := by
  have h1 := List.sizeOf_lt_of_mem h
  have h2 : sizeOf (k, v) = 1 + sizeOf k + sizeOf v := rfl
  omega

lemma lookupCI_sizeOf {fields : List (String × Json)} {name : String}
    {v : Json} (h : lookupCI fields name = some v) : sizeOf v < sizeOf fields := by
  unfold lookupCI at h
  cases hl : fields.lookup name with
  | some w =>
    rw [hl] at h
    injection h with h2
    subst h2
    exact sizeOf_snd_lt (lookup_mem hl)
  | none =>
    rw [hl] at h
    cases hf : fields.find? (fun p => strLower p.1 == strLower name) with
    | none => rw [hf] at h; simp at h
    | some p =>
      rw [hf] at h
      obtain ⟨a, b⟩ := p
      simp at h
      subst h
      exact sizeOf_snd_lt (List.mem_of_find?_eq_some hf)

/-! ### XML node tree and builder (src/xml/builder.ts) -/

/-- Built XML node content: the observable output of the builder, standing
for the xmlbuilder2 node tree (serialization is outside the core). -/
inductive XmlContent where
  | text (s : String) : XmlContent
  | elem (name : String) (attrs : List (String × String))
      (children : List XmlContent) : XmlContent

/-- `XsdMappingError`: a structural mapping failure with a JSON-path. -/
structure MappingErr where
  path : String
  message : String

/-- Builder options (`BuildOptions`).  The TS field `attributePrefix` is
called `attributePfx` here; `prettyPrint`, `xmlDeclaration` and `encoding`
only affect string serialization, which is outside the embedded core. -/
structure BuildOptions where
  prettyPrint : Bool
  xmlDeclaration : Bool
  encoding : String
  attributePfx : String
  textNodeKey : String
  targetNamespace : Option String

/-- xmlbuilder2 `node.att`: sets an attribute, replacing an existing one of
the same name in place, appending otherwise. -/
def attSet (attrs : List (String × String)) (k v : String) :
    List (String × String) :=
  if attrs.any (fun p => p.1 == k) then
    attrs.map (fun p => if p.1 == k then (k, v) else p)
  else attrs ++ [(k, v)]

/-- The builder's attribute loop: case-insensitive lookup of
`attributePrefix + name`; present non-null values win, else the schema
default, else nothing.  The emitted attribute name is always the schema's. -/
def buildAttrs (apfx : String) (attrDefs : List AttributeDef)
    (fields : List (String × Json)) : List (String × String) :=
  attrDefs.foldl (fun acc a =>
    match lookupCI fields (apfx ++ a.name) with
    | some Json.null =>
      match a.default with
      | some d => attSet acc a.name d
      | none => acc
    | some v => attSet acc a.name (jsToString v)
    | none =>
      match a.default with
      | some d => attSet acc a.name d
      | none => acc) []

/- `buildWildcardValue` (and its object/array loops): schema-free recursive
serialization used for xs:any pass-through content.  Returns the attributes
and contents added to the current node. -/
mutual
def buildWildcardValue (apfx tkey : String) (value : Json) :
    List (String × String) × List XmlContent :=
  match value with
  | Json.null => ([], [])
  | Json.arr items => ([], [XmlContent.text (jsonStringify (Json.arr items))])
  | Json.obj fields => buildWildcardFields apfx tkey fields ([], [])
  | v => ([], [XmlContent.text (jsToString v)])
termination_by (sizeOf value, 0)

def buildWildcardFields (apfx tkey : String) (fields : List (String × Json))
    (acc : List (String × String) × List XmlContent) :
    List (String × String) × List XmlContent :=
  match fields with
  | [] => acc
  | (k, v) :: rest =>
    match v with
    | Json.null => buildWildcardFields apfx tkey rest acc
    | v' =>
      if k == tkey then
        buildWildcardFields apfx tkey rest
          (acc.1, acc.2 ++ [XmlContent.text (jsToString v')])
      else if k.startsWith apfx then
        buildWildcardFields apfx tkey rest
          (attSet acc.1 (k.drop apfx.length) (jsToString v'), acc.2)
      else
        match v' with
        | Json.arr items =>
          buildWildcardFields apfx tkey rest
            (acc.1, acc.2 ++ buildWildcardItems apfx tkey k items)
        | v'' =>
          let r := buildWildcardValue apfx tkey v''
          buildWildcardFields apfx tkey rest
            (acc.1, acc.2 ++ [XmlContent.elem k r.1 r.2])
termination_by (sizeOf fields, 1)

def buildWildcardItems (apfx tkey : String) (k : String)
    (items : List Json) : List XmlContent :=
  match items with
  | [] => []
  | it :: rest =>
    let r := buildWildcardValue apfx tkey it
    XmlContent.elem k r.1 r.2 :: buildWildcardItems apfx tkey k rest
termination_by (sizeOf items, 0)
end

/-- The xs:any pass-through loop inside `buildElement`: every remaining
JSON key that is not the text key, not attribute-prefixed and not a
(case-insensitively) known child is emitted as a free child element. -/
def buildWildcardTop (apfx tkey : String) (known : List String)
    (fields : List (String × Json)) : List XmlContent :=
  match fields with
  | [] => []
  | (k, v) :: rest =>
    if k == tkey then buildWildcardTop apfx tkey known rest
    else if k.startsWith apfx then buildWildcardTop apfx tkey known rest
    else if known.contains (strLower k) then buildWildcardTop apfx tkey known rest
    else
      match v with
      | Json.null => buildWildcardTop apfx tkey known rest
      | Json.arr items =>
        buildWildcardItems apfx tkey k items ++
          buildWildcardTop apfx tkey known rest
      | v' =>
        let r := buildWildcardValue apfx tkey v'
        XmlContent.elem k r.1 r.2 :: buildWildcardTop apfx tkey known rest

/- `buildElement` and its child/array loops.  `buildElement` returns the
attributes and contents added to the already-created node for the element;
the parent (or `buildXml`) wraps them into the node it created, matching
the mutating xmlbuilder2 API where the tag is created by the caller before
`buildElement` runs. -/
mutual
def buildElement (model : SchemaModel) (opts : BuildOptions)
    (el : ElementDef) (value : Json) (path : String) :
    Except MappingErr (List (String × String) × List XmlContent) :=
  match value with
  | Json.arr _ =>
    Except.error ⟨path, "Unexpected array passed to buildElement for \"" ++
      el.name ++ "\". Arrays should be handled by the parent."⟩
  | Json.null => Except.ok ([], [])
  | Json.obj fields =>
    match resolveComplexTypeForElement model el with
    | none => Except.ok ([], [XmlContent.text (jsToString (Json.obj fields))])
    | some ct =>
      let attrs :=
        buildAttrs opts.attributePfx (getAttributesForElement model el) fields
      match ct.hasTextContent, fields.lookup opts.textNodeKey with
      | true, some tv => Except.ok (attrs, [XmlContent.text (jsToString tv)])
      | _, _ =>
        let resolvedChildren := getChildElementsForElement model el
        let known := lowerSet (resolvedChildren.map (fun c => c.name))
        match buildChildren model opts resolvedChildren fields path with
        | Except.error e => Except.error e
        | Except.ok childContents =>
          let wc :=
            if hasWildcardForElement model el then
              buildWildcardTop opts.attributePfx opts.textNodeKey known fields
            else []
          Except.ok (attrs, childContents ++ wc)
  | v =>
    Except.ok ([], [XmlContent.text (jsToString v)])
termination_by (sizeOf value, 0)

def buildChildren (model : SchemaModel) (opts : BuildOptions)
    (children : List ElementDef) (fields : List (String × Json))
    (path : String) : Except MappingErr (List XmlContent) :=
  match children with
  | [] => Except.ok []
  | c :: cs =>
    match h : lookupCI fields c.name with
    | none => buildChildren model opts cs fields path
    | some Json.null => buildChildren model opts cs fields path
    | some (Json.arr items) =>
      match buildItems model opts c items path 0 with
      | Except.error e => Except.error e
      | Except.ok nodes =>
        match buildChildren model opts cs fields path with
        | Except.error e => Except.error e
        | Except.ok rest => Except.ok (nodes ++ rest)
    | some v =>
      match buildElement model opts c v (path ++ "." ++ c.name) with
      | Except.error e => Except.error e
      | Except.ok (as, contents) =>
        match buildChildren model opts cs fields path with
        | Except.error e => Except.error e
        | Except.ok rest =>
          Except.ok (XmlContent.elem c.name as contents :: rest)
termination_by (sizeOf fields, children.length + 1)
decreasing_by
  all_goals simp_wf
  all_goals first
    | (apply Prod.Lex.right
       simp +arith)
    | (apply Prod.Lex.left
       have h2 := lookupCI_sizeOf h
       simp only [Json.arr.sizeOf_spec] at h2
       omega)

def buildItems (model : SchemaModel) (opts : BuildOptions) (c : ElementDef)
    (items : List Json) (path : String) (i : Nat) :
    Except MappingErr (List XmlContent) :=
  match items with
  | [] => Except.ok []
  | it :: rest =>
    match buildElement model opts c it
        (path ++ "." ++ c.name ++ "[" ++ toString i ++ "]") with
    | Except.error e => Except.error e
    | Except.ok (as, contents) =>
      match buildItems model opts c rest path (i + 1) with
      | Except.error e => Except.error e
      | Except.ok more =>
        Except.ok (XmlContent.elem c.name as contents :: more)
termination_by (sizeOf items, 0)
end

/-- `buildXml`: looks up the configured root element (failing with a
MappingError at `$` when absent), unwraps an optional root-named wrapper
key case-insensitively, and builds the root node, adding the target
namespace as a default `xmlns` declaration when present. -/
def buildXml (model : SchemaModel) (json : List (String × Json))
    (opts : BuildOptions) : Except MappingErr XmlContent :=
  let rootName := model.rootElement
  match lookupElement model rootName with
  | none =>
    Except.error ⟨"$", "Root element \"" ++ rootName ++
      "\" not found in schema."⟩
  | some rootEl =>
    let rootValue : Json :=
      match lookupCI json rootName with
      | some v => v
      | none => Json.obj json
    let initAttrs : List (String × String) :=
      match opts.targetNamespace with
      | some ns => [("xmlns", ns)]
      | none => []
    match buildElement model opts rootEl rootValue ("$." ++ rootName) with
    | Except.error e => Except.error e
    | Except.ok (attrs, contents) =>
      Except.ok (XmlContent.elem rootName
        (attrs.foldl (fun acc p => attSet acc p.1 p.2) initAttrs) contents)

/-! ### Strict-mode validator (src/validation/json-validator.ts) -/

/-- One schema-violation entry (`ValidationIssue`). -/
structure ValidationIssue where
  path : String
  message : String
deriving DecidableEq

/- `validateElement` and its child/array loops.  Issues are returned in
discovery order; nothing stops at the first issue. -/
mutual
def validateElement (model : SchemaModel) (apfx tkey : String)
    (el : ElementDef) (value : Json) (path : String) : List ValidationIssue :=
  match value with
  | Json.arr items =>
    if !el.isArray then
      [⟨path, "Element \"" ++ el.name ++
        "\" does not allow multiple occurrences (maxOccurs=1), but an array was provided."⟩]
    else validateItems model apfx tkey el items path 0
  | Json.null =>
    match resolveComplexTypeForElement model el with
    | none => []
    | some _ =>
      if el.minOccurs > 0 then
        [⟨path, "Required element \"" ++ el.name ++ "\" is null/undefined."⟩]
      else []
  | Json.obj fields =>
    match resolveComplexTypeForElement model el with
    | none =>
      [⟨path, "Element \"" ++ el.name ++
        "\" is a simple type but received an object."⟩]
    | some _ =>
      let attrIssues := (getAttributesForElement model el).filterMap (fun a =>
        match a.use, fields.lookup (apfx ++ a.name) with
        | AttrUse.required, none =>
          some ⟨path ++ "." ++ apfx ++ a.name,
            "Required attribute \"" ++ a.name ++ "\" is missing."⟩
        | _, _ => none)
      let resolvedChildren := getChildElementsForElement model el
      let childIssues :=
        validateChildren model apfx tkey resolvedChildren fields path
      let knownChildren := resolvedChildren.map (fun e => e.name)
      let knownAttrs :=
        (getAttributesForElement model el).map (fun a => apfx ++ a.name)
      let wild := hasWildcardForElement model el
      let unknownIssues := fields.filterMap (fun p =>
        if p.1 == tkey then none
        else if knownChildren.contains p.1 || knownAttrs.contains p.1 then none
        else if wild then none
        else some ⟨path ++ "." ++ p.1,
          "Unknown property \"" ++ p.1 ++
            "\" not declared in schema for element \"" ++ el.name ++ "\"."⟩)
      attrIssues ++ childIssues ++ unknownIssues
  | _ =>
    match resolveComplexTypeForElement model el with
    | none => []
    | some _ =>
      [⟨path, "Element \"" ++ el.name ++
        "\" expects an object (complexType) but received a scalar/array."⟩]
termination_by (sizeOf value, 0)

def validateChildren (model : SchemaModel) (apfx tkey : String)
    (children : List ElementDef) (fields : List (String × Json))
    (path : String) : List ValidationIssue :=
  match children with
  | [] => []
  | c :: cs =>
    let here :=
      match h : fields.lookup c.name with
      | none =>
        if c.minOccurs > 0 then
          [⟨path ++ "." ++ c.name, "Required element \"" ++ c.name ++
            "\" (minOccurs=" ++ toString c.minOccurs ++ ") is missing."⟩]
        else []
      | some Json.null =>
        if c.minOccurs > 0 then
          [⟨path ++ "." ++ c.name, "Required element \"" ++ c.name ++
            "\" (minOccurs=" ++ toString c.minOccurs ++ ") is missing."⟩]
        else []
      | some v => validateElement model apfx tkey c v (path ++ "." ++ c.name)
    here ++ validateChildren model apfx tkey cs fields path
termination_by (sizeOf fields, children.length + 1)
decreasing_by
  all_goals simp_wf
  all_goals first
    | (apply Prod.Lex.right
       simp +arith)
    | (apply Prod.Lex.left
       exact sizeOf_snd_lt (lookup_mem h))

def validateItems (model : SchemaModel) (apfx tkey : String)
    (el : ElementDef) (items : List Json) (path : String) (i : Nat) :
    List ValidationIssue :=
  match items with
  | [] => []
  | it :: rest =>
    validateElement model apfx tkey el it (path ++ "[" ++ toString i ++ "]") ++
      validateItems model apfx tkey el rest path (i + 1)
termination_by (sizeOf items, 0)
end

/-- `validateJson`: finds the root element (single immediate root-not-found
issue at `$` when absent), validates the root value, and fails with the
complete collected issue list exactly when it is non-empty. -/
def validateJson (model : SchemaModel) (apfx tkey : String)
    (json : List (String × Json)) : Except (List ValidationIssue) Unit :=
  match lookupElement model model.rootElement with
  | none =>
    Except.error [⟨"$", "Root element \"" ++ model.rootElement ++
      "\" not found in schema."⟩]
  | some rootEl =>
    let rootValue : Json :=
      match json.lookup model.rootElement with
      | some v => v
      | none => Json.obj json
    let issues :=
      validateElement model apfx tkey rootEl rootValue
        ("$." ++ model.rootElement)
    if issues.isEmpty then Except.ok () else Except.error issues

/-! ### Recursive XSD parser: merge and cycle logic (src/xsd/parser.ts)

File reading and XML tokenizing sit on the spec's external boundary; they
are abstracted by a finite `FileSystem` of already-tokenized files keyed
by resolved source identifiers (TS resolves relative paths with
`path.resolve`; the model treats identifiers as opaque, with resolution
the identity).  Per-node parsing (`parseElement`, `parseComplexType`,
`parseAttribute`) is pure translation of tokenizer output and is folded
into the `XsdFile` record fields. -/

/-- One tokenized schema source: the per-file data `parseXsdInternal`
extracts before processing includes/imports. -/
structure XsdFile where
  targetNamespace : Option String
  prefixDecls : List (String × String)
  topElements : List ElementDef
  complexTypes : List ComplexTypeDef
  simpleTypes : List SimpleTypeDef
  includes : List String
  imports : List (String × String)

/-- The model returned when a parse call revisits an in-progress source. -/
def emptyModel : SchemaModel := ⟨"", [], [], [], none⟩

/-- The TS pattern `if (!map.has(k)) map.set(k, v)`. -/
def insIfAbsent {α : Type} (m : List (String × α)) (k : String) (v : α) :
    List (String × α) :=
  if mhas m k then m else mset m k v

/-- Merge of an included model's map: first writer wins. -/
def mergeNoOverwrite {α : Type} (m inc : List (String × α)) :
    List (String × α) :=
  inc.foldl (fun acc p => insIfAbsent acc p.1 p.2) m

/-- Merge of an imported model's type map: each entry is registered under
its bare name and under `pfx:name` for every matching prefix, never
overwriting an existing key. -/
def mergeImportTypes {α : Type} (m inc : List (String × α))
    (prefixes : List String) : List (String × α) :=
  inc.foldl (fun acc p =>
    let acc1 := insIfAbsent acc p.1 p.2
    prefixes.foldl (fun acc2 pfx => insIfAbsent acc2 (pfx ++ ":" ++ p.1) p.2)
      acc1) m

/-- The pure assembly of one file's model from its own contents and the
(already parsed) include/import results, exactly as `parseXsdInternal`
does after the recursive calls: collect own elements/types (skipping
unnamed types), build the prefix map (excluding `xs`), merge includes
without overwriting, merge imports with prefixed type registration, and
derive the effective root element. -/
def assembleModel (f : XsdFile)
    (incResults : List (Except String SchemaModel))
    (impResults : List ((String × String) × Except String SchemaModel)) :
    SchemaModel :=
  let elems0 := f.topElements.foldl (fun m e => mset m e.name e) []
  let cts0 := f.complexTypes.foldl
    (fun m ct => if ct.name == "" then m else mset m ct.name ct) []
  let sts0 := f.simpleTypes.foldl
    (fun m st => if st.name == "" then m else mset m st.name st) []
  let pmap := f.prefixDecls.foldl
    (fun m pu => if pu.1 == "xs" then m else mset m pu.1 pu.2) []
  let rootEl0 := match f.topElements with | [] => "" | e :: _ => e.name
  let merged1 := incResults.foldl (fun acc r =>
    match r with
    | Except.error _ => acc
    | Except.ok m =>
      (mergeNoOverwrite acc.1 m.elements,
       mergeNoOverwrite acc.2.1 m.complexTypes,
       mergeNoOverwrite acc.2.2 m.simpleTypes))
    (elems0, cts0, sts0)
  let merged2 := impResults.foldl (fun acc pr =>
    match pr.2 with
    | Except.error _ => acc
    | Except.ok m =>
      let prefixes :=
        (pmap.filter (fun pu => pu.2 == pr.1.1)).map (fun pu => pu.1)
      (mergeNoOverwrite acc.1 m.elements,
       mergeImportTypes acc.2.1 m.complexTypes prefixes,
       mergeImportTypes acc.2.2 m.simpleTypes prefixes))
    merged1
  let effectiveRoot :=
    if rootEl0 ≠ "" then rootEl0
    else match merged2.1 with | [] => "" | p :: _ => p.1
  ⟨effectiveRoot, merged2.1, merged2.2.1, merged2.2.2, f.targetNamespace⟩

/-- Keys of the file system. -/
def fsKeys (fs : List (String × XsdFile)) : List String :=
  fs.map (fun p => p.1)

/-- Number of file-system keys not yet visited. -/
def unvisitedFiles (fs : List (String × XsdFile)) (visited : List String) :
    Nat :=
  ((fsKeys fs).toFinset \ visited.toFinset).card

lemma mget_key_mem {α : Type} {m : List (String × α)} {k : String} {v : α}
    (h : mget m k = some v) : k ∈ m.map (fun p => p.1) :=
  List.mem_map.2 ⟨(k, v), mget_mem h, rfl⟩

lemma unvisitedFiles_lt {fs : List (String × XsdFile)} {x : String}
    {visited : List String} (h1 : x ∉ visited) (h2 : x ∈ fsKeys fs) :
    unvisitedFiles fs (x :: visited) < unvisitedFiles fs visited := by
  unfold unvisitedFiles
  have hsub : (fsKeys fs).toFinset \ (x :: visited).toFinset ⊆
      (fsKeys fs).toFinset \ visited.toFinset := by
    intro a ha
    simp only [Finset.mem_sdiff, List.mem_toFinset, List.mem_cons] at ha ⊢
    exact ⟨ha.1, fun hm => ha.2 (Or.inr hm)⟩
  refine Finset.card_lt_card ((Finset.ssubset_iff_of_subset hsub).2 ⟨x, ?_, ?_⟩)
  · simp only [Finset.mem_sdiff, List.mem_toFinset]
    exact ⟨h2, h1⟩
  · simp

lemma unvisitedFiles_le_of_subset {fs : List (String × XsdFile)}
    {v v' : List String} (h : v ⊆ v') :
    unvisitedFiles fs v' ≤ unvisitedFiles fs v := by
  unfold unvisitedFiles
  refine Finset.card_le_card ?_
  intro a ha
  simp only [Finset.mem_sdiff, List.mem_toFinset] at ha ⊢
  exact ⟨ha.1, fun hm => ha.2 (h hm)⟩

/- `parseXsdInternal` (`parseOne`) and its include/import loop
(`parseMany`).  The visited set is threaded exactly as the TS code threads
its mutable `Set`: additions made while parsing one include are seen by the
later sibling parses, and a revisited identifier yields an empty model
without recursing.  Each result carries the proof that the visited set only
grows, which is what makes the recursion well-founded. -/
mutual
def parseOne (fs : List (String × XsdFile)) (path : String)
    (visited : List String) :
    Except String SchemaModel × { v : List String // visited ⊆ v } :=
  if hv : path ∈ visited then
    (Except.ok emptyModel, ⟨visited, fun _ h => h⟩)
  else
    match hf : mget fs path with
    | none =>
      (Except.error ("Cannot read XSD file: " ++ path),
       ⟨path :: visited, fun _ hx => List.mem_cons_of_mem _ hx⟩)
    | some f =>
      match parseMany fs (f.includes.filter (fun l => l ≠ ""))
          (path :: visited) with
      | (incResults, ⟨v1, hv1⟩) =>
        match parseMany fs
            ((f.imports.filter (fun pr => pr.2 ≠ "")).map (fun pr => pr.2))
            v1 with
        | (impResults, ⟨v2, hv2⟩) =>
          (Except.ok (assembleModel f incResults
            ((f.imports.filter (fun pr => pr.2 ≠ "")).zip impResults)),
           ⟨v2, fun _ hx => hv2 (hv1 (List.mem_cons_of_mem _ hx))⟩)
termination_by (unvisitedFiles fs visited, 0, 0)
decreasing_by
  · apply Prod.Lex.left
    exact unvisitedFiles_lt hv (mget_key_mem hf)
  · apply Prod.Lex.left
    calc unvisitedFiles fs v1 ≤ unvisitedFiles fs (path :: visited) :=
        unvisitedFiles_le_of_subset hv1
      _ < unvisitedFiles fs visited :=
        unvisitedFiles_lt hv (mget_key_mem hf)

def parseMany (fs : List (String × XsdFile)) (locs : List String)
    (visited : List String) :
    List (Except String SchemaModel) × { v : List String // visited ⊆ v } :=
  match locs with
  | [] => ([], ⟨visited, fun _ h => h⟩)
  | l :: ls =>
    match parseOne fs l visited with
    | (r, ⟨v1, hv1⟩) =>
      match parseMany fs ls v1 with
      | (rs, ⟨v2, hv2⟩) => (r :: rs, ⟨v2, fun _ hx => hv2 (hv1 hx)⟩)
termination_by (unvisitedFiles fs visited, 1, locs.length)
decreasing_by
  · apply Prod.Lex.right
    apply Prod.Lex.left
    omega
  · rcases lt_or_eq_of_le (@unvisitedFiles_le_of_subset fs visited v1 hv1) with
      hlt | heq
    · exact Prod.Lex.left _ _ hlt
    · rw [heq]
      apply Prod.Lex.right
      apply Prod.Lex.right
      simp
end

/-- `parseXsd`: the public entry, starting from an empty visited set. -/
def parseXsd (fs : List (String × XsdFile)) (path : String) :
    Except String SchemaModel :=
  (parseOne fs path []).1

/-! ### Claims -/

/-! #### C8: `isSimpleType` -/

/-- A model with no registered simple types, used to refute C8. -/
def c8Model : SchemaModel := ⟨"", [], [], [], none⟩

/-- C8 counterexample: the claim says `isSimpleType` also returns true for
an unrecognized name, but for a nonempty name that is neither a built-in
XSD scalar type nor a registered simple type the walker returns false. -/
theorem c8_counterexample :
    isSimpleType c8Model (some "UnknownType") = false ∧
      "UnknownType" ∉ XS_SIMPLE_TYPES ∧
      mhas c8Model.simpleTypes "UnknownType" = false := by
  refine ⟨?_, ?_, ?_⟩ <;> decide

/-- C8 (amended): `isSimpleType` returns true exactly when the name is
absent, empty, a built-in scalar XSD type name, or a registered named
simple type; an unrecognized nonempty name yields false (the spec's
"unrecognized name defaults to text" behaviour lives in
`resolveComplexTypeForElement` returning none, not in `isSimpleType`). -/
theorem c8_isSimpleType_characterization :
    (∀ model : SchemaModel, isSimpleType model none = true) ∧
      (∀ (model : SchemaModel) (s : String),
        isSimpleType model (some s) = true ↔
          (s = "" ∨ s ∈ XS_SIMPLE_TYPES ∨
            mhas model.simpleTypes s = true)) := by
  constructor
  · intro model
    rfl
  · intro model s
    unfold isSimpleType
    show (if s = "" then true
      else if XS_SIMPLE_TYPES.contains s then true
      else mhas model.simpleTypes s) = true ↔ _
    by_cases h0 : s = ""
    · simp [h0]
    · rw [if_neg h0]
      by_cases h1 : XS_SIMPLE_TYPES.contains s
      · have h1m : s ∈ XS_SIMPLE_TYPES := by
          simpa using h1
        simp [h1, h1m]
      · have h1m : s ∉ XS_SIMPLE_TYPES := by
          simpa using h1
        simp [h1, h1m, h0]

/-! #### C2: inheritance-chain child resolution -/

def c2eT : ElementDef := .mk "eT" (some "xs:string") none 1 (.bounded 1) [] [] false
def c2eB : ElementDef := .mk "eB" (some "xs:string") none 1 (.bounded 1) [] [] false
def c2CtT : ComplexTypeDef := .mk "T" .sequence [c2eT] [] false (some "B") false
def c2CtB : ComplexTypeDef := .mk "B" .sequence [c2eB] [] false (some "T") false
def c2ElT : ElementDef := .mk "t" (some "T") none 1 (.bounded 1) [] [] false
def c2ElB : ElementDef := .mk "b" (some "B") none 1 (.bounded 1) [] [] false

/-- A model whose two complex types mutually extend each other. -/
def c2Model : SchemaModel :=
  ⟨"t", [("t", c2ElT), ("b", c2ElB)], [("T", c2CtT), ("B", c2CtB)], [], none⟩

/-- C2 counterexample: for mutually extending types `T` (extends `B`) and
`B` (extends `T`), the visited-set guard makes the resolved child lists
diverge: resolving `T` yields `[eT, eB, eT]` while resolving `B` and
appending `T`'s own elements yields `[eB, eT, eB, eT]`, so the claimed
equation (and its "no duplicates introduced" part) fails. -/
theorem c2_counterexample :
    c2CtT.extendsBase = some "B" ∧
      mget c2Model.complexTypes "B" = some c2CtB ∧
      getChildElementsForElement c2Model c2ElT ≠
        getChildElementsForElement c2Model c2ElB ++ c2CtT.elements := by
  refine ⟨rfl, by simp [c2Model, mget, List.find?, c2CtT, c2CtB], ?_⟩
  have hL : getChildElementsForElement c2Model c2ElT = [c2eT, c2eB, c2eT] := by
    simp [getChildElementsForElement, resolveComplexTypeForElement, c2ElT,
      c2Model, mget, List.find?, c2CtT, c2CtB, resolveAllElements, c2eT, c2eB]
  have hR : getChildElementsForElement c2Model c2ElB = [c2eB, c2eT, c2eB] := by
    simp [getChildElementsForElement, resolveComplexTypeForElement, c2ElB,
      c2Model, mget, List.find?, c2CtT, c2CtB, resolveAllElements, c2eT, c2eB]
  rw [hL, hR]
  intro h
  have := congrArg List.length h
  simp [c2CtT] at this

/-- C2 (amended): when an element's type `T` extends a registered base `B`
and the `extends` chain starting at `B` (with the walker's stopping rules)
never reaches a type named `T.name` — i.e. no inheritance cycle back to
`T` — the walker's child resolution satisfies
`resolveChildren(T-element) = resolveChildren(B-element) ++ T.elements`,
base first, declaration order preserved, nothing added or removed; with a
cycle back to `T` the visited guard still makes resolution terminate but
the equation can fail. -/
theorem c2_resolve_children_base_then_derived
    (model : SchemaModel) (elT elB : ElementDef) (T B : ComplexTypeDef)
    (bName : String)
    (hT : resolveComplexTypeForElement model elT = some T)
    (hB : resolveComplexTypeForElement model elB = some B)
    (hext : T.extendsBase = some bName)
    (hget : mget model.complexTypes bName = some B)
    (hchain : T.name ∉ chainNames model [] B) :
    getChildElementsForElement model elT =
      getChildElementsForElement model elB ++ T.elements := by
  unfold getChildElementsForElement
  rw [hT, hB]
  show resolveAllElements model [] T = resolveAllElements model [] B ++ T.elements
  rw [resolveAllElements_step model [] T, if_neg (List.not_mem_nil _), hext]
  simp only [hget]
  rw [resolveAllElements_cons_of_not_mem_chain model T.name [] B hchain]

def c2wCtB : ComplexTypeDef := .mk "WB" .sequence [c2eB] [] false none false
def c2wCtT : ComplexTypeDef := .mk "WT" .sequence [c2eT] [] false (some "WB") false
def c2wElT : ElementDef := .mk "wt" (some "WT") none 1 (.bounded 1) [] [] false
def c2wElB : ElementDef := .mk "wb" (some "WB") none 1 (.bounded 1) [] [] false

/-- An acyclic single-step extension model for the C2 witness. -/
def c2wModel : SchemaModel :=
  ⟨"wt", [("wt", c2wElT), ("wb", c2wElB)],
   [("WT", c2wCtT), ("WB", c2wCtB)], [], none⟩

/-- C2 witness: the amended theorem applied to a concrete acyclic
extension `WT extends WB`. -/
theorem c2_witness :
    getChildElementsForElement c2wModel c2wElT =
      getChildElementsForElement c2wModel c2wElB ++ c2wCtT.elements :=
  c2_resolve_children_base_then_derived c2wModel c2wElT c2wElB c2wCtT c2wCtB
    "WB"
    (by simp [resolveComplexTypeForElement, c2wElT, c2wModel, mget,
      List.find?, c2wCtT])
    (by simp [resolveComplexTypeForElement, c2wElB, c2wModel, mget,
      List.find?, c2wCtB])
    rfl
    (by simp [c2wModel, mget, List.find?, c2wCtB])
    (by simp [chainNames, c2wModel, c2wCtB, c2wCtT, mget, List.find?])

/-! #### C3: strict validation aggregates all issues -/

/-- C3: `validateJson` fails with a single error carrying exactly the
complete issue list collected by the pass (`validateElement` on the root
value), returns without error when that list is empty, and when the root
element is not found it fails immediately with the single root-not-found
issue at path `$`. -/
theorem c3_validateJson_aggregates (model : SchemaModel)
    (apfx tkey : String) (json : List (String × Json)) :
    (lookupElement model model.rootElement = none →
      validateJson model apfx tkey json =
        Except.error [⟨"$", "Root element \"" ++ model.rootElement ++
          "\" not found in schema."⟩]) ∧
    (∀ (rootEl : ElementDef) (rootValue : Json)
        (issues : List ValidationIssue),
      lookupElement model model.rootElement = some rootEl →
      rootValue = (match json.lookup model.rootElement with
        | some v => v
        | none => Json.obj json) →
      issues = validateElement model apfx tkey rootEl rootValue
        ("$." ++ model.rootElement) →
      (issues = [] → validateJson model apfx tkey json = Except.ok ()) ∧
      (issues ≠ [] →
        validateJson model apfx tkey json = Except.error issues)) := by
  constructor
  · intro h
    unfold validateJson
    rw [h]
  · intro rootEl rootValue issues h1 h2 h3
    have hcore : validateJson model apfx tkey json =
        if issues.isEmpty then Except.ok () else Except.error issues := by
      unfold validateJson
      rw [h1]
      show (if (validateElement model apfx tkey rootEl
            (match json.lookup model.rootElement with
              | some v => v
              | none => Json.obj json) ("$." ++ model.rootElement)).isEmpty
          then Except.ok ()
          else Except.error (validateElement model apfx tkey rootEl
            (match json.lookup model.rootElement with
              | some v => v
              | none => Json.obj json) ("$." ++ model.rootElement))) = _
      rw [← h2, ← h3]
    constructor
    · intro hnil
      rw [hcore, hnil]
      rfl
    · intro hne
      rw [hcore, if_neg (by simpa [List.isEmpty_iff] using hne)]

def c3Req1 : ElementDef := .mk "r1" (some "xs:string") none 1 (.bounded 1) [] [] false
def c3Req2 : ElementDef := .mk "r2" (some "xs:string") none 1 (.bounded 1) [] [] false
def c3Ct : ComplexTypeDef := .mk "RT" .sequence [c3Req1, c3Req2] [] false none false
def c3Root : ElementDef := .mk "root" (some "RT") none 1 (.bounded 1) [] [] false

/-- A model with two required children, for the C3 witness. -/
def c3Model : SchemaModel :=
  ⟨"root", [("root", c3Root)], [("RT", c3Ct)], [], none⟩

/-- C3 witness: validating `{}` against a schema with two required children
fails with one error carrying both issues, in discovery order. -/
theorem c3_witness :
    validateJson c3Model "@" "#text" [] =
      Except.error
        [⟨"$.root.r1", "Required element \"r1\" (minOccurs=1) is missing."⟩,
         ⟨"$.root.r2", "Required element \"r2\" (minOccurs=1) is missing."⟩] := by
  have h := (c3_validateJson_aggregates c3Model "@" "#text" []).2 c3Root
    (Json.obj [])
    [⟨"$.root.r1", "Required element \"r1\" (minOccurs=1) is missing."⟩,
     ⟨"$.root.r2", "Required element \"r2\" (minOccurs=1) is missing."⟩]
    (by simp [lookupElement, c3Model, mget, List.find?, c3Root])
    (by simp [c3Model, List.lookup])
    (by
      simp [validateElement, validateChildren, c3Model, c3Root, c3Ct,
        c3Req1, c3Req2, resolveComplexTypeForElement, getAttributesForElement,
        getChildElementsForElement, hasWildcardForElement, resolveAllElements,
        resolveAllAttributes, resolveHasWildcard, mget, List.find?,
        List.lookup, List.filterMap]
      exact ⟨rfl, rfl⟩)
  exact h.2 (by simp)

/-! #### C10: required attribute explicitly null -/

/-- C10: the strict validator's required-attribute check only fires when
the prefixed attribute key is absent, so an explicitly null value for a
`use=required` attribute validates without any issue, while the builder
then omits the attribute entirely (or emits the schema default when one is
declared) in the produced node. -/
theorem c10_required_attr_null_passes (model : SchemaModel)
    (opts : BuildOptions) (path : String) (el : ElementDef)
    (ct : ComplexTypeDef) (a : AttributeDef)
    (hct : resolveComplexTypeForElement model el = some ct)
    (htc : ct.hasTextContent = false)
    (hattrs : getAttributesForElement model el = [a])
    (hreq : a.use = AttrUse.required)
    (hch : getChildElementsForElement model el = [])
    (hwc : hasWildcardForElement model el = false) :
    validateElement model opts.attributePfx opts.textNodeKey el
        (Json.obj [(opts.attributePfx ++ a.name, Json.null)]) path = [] ∧
      buildElement model opts el
        (Json.obj [(opts.attributePfx ++ a.name, Json.null)]) path =
        Except.ok ((match a.default with
          | some d => [(a.name, d)]
          | none => ([] : List (String × String))), []) := by
  constructor
  · simp only [validateElement, hct, hattrs, hch, hwc, hreq]
    simp only [validateChildren, List.filterMap, List.lookup, List.map]
    simp only [beq_self_eq_true]
    simp
  · simp only [buildElement, hct, hattrs, hch, hwc, htc]
    simp only [buildChildren, buildAttrs, List.foldl, lookupCI, List.lookup,
      beq_self_eq_true, lowerSet, List.map]
    cases hd : a.default with
    | none => simp [hd, attSet]
    | some d => simp [hd, attSet]

def c10Attr : AttributeDef := ⟨"id", "xs:string", .required, none, none⟩
def c10Ct : ComplexTypeDef := .mk "AT" .sequence [] [c10Attr] false none false
def c10El : ElementDef := .mk "item" (some "AT") none 1 (.bounded 1) [] [] false

/-- A model with one required attribute, for the C10 witness. -/
def c10Model : SchemaModel :=
  ⟨"item", [("item", c10El)], [("AT", c10Ct)], [], none⟩

/-- Default conversion options (`@` attribute prefix, `#text` text key). -/
def c10Opts : BuildOptions := ⟨false, true, "UTF-8", "@", "#text", none⟩

/-- C10 witness: `{"@id": null}` for a required attribute `id` with no
default produces no validation issue and an element with no attributes. -/
theorem c10_witness :
    validateElement c10Model "@" "#text" c10El
        (Json.obj [("@" ++ c10Attr.name, Json.null)]) "$.item" = [] ∧
      buildElement c10Model c10Opts c10El
        (Json.obj [("@" ++ c10Attr.name, Json.null)]) "$.item" =
        Except.ok ([], []) := by
  have h := c10_required_attr_null_passes c10Model c10Opts "$.item" c10El
    c10Ct c10Attr
    (by simp [resolveComplexTypeForElement, c10El, c10Model, mget,
      List.find?, c10Ct])
    rfl
    (by simp [getAttributesForElement, resolveComplexTypeForElement, c10El,
      c10Model, mget, List.find?, c10Ct, resolveAllAttributes, c10Attr])
    rfl
    (by simp [getChildElementsForElement, resolveComplexTypeForElement,
      c10El, c10Model, mget, List.find?, c10Ct, resolveAllElements])
    (by simp [hasWildcardForElement, resolveComplexTypeForElement, c10El,
      c10Model, mget, List.find?, c10Ct, resolveHasWildcard])
  exact ⟨h.1, h.2⟩

/-! #### C9: null array items still emit empty child tags -/

lemma buildItems_all_null (model : SchemaModel) (opts : BuildOptions)
    (c : ElementDef) (path : String) :
    ∀ (items : List Json) (i : Nat), (∀ it ∈ items, it = Json.null) →
      buildItems model opts c items path i =
        Except.ok (items.map (fun _ => XmlContent.elem c.name [] [])) := by
  intro items
  induction items with
  | nil =>
    intro i _
    simp [buildItems]
  | cons it rest ih =>
    intro i h
    have hit : it = Json.null := h it (List.mem_cons_self _ _)
    subst hit
    simp only [buildItems, buildElement]
    rw [ih (i + 1) (fun x hx => h x (List.mem_cons_of_mem _ hx))]
    simp

/- Step equations for `buildChildren`, phrased with the case-insensitive
lookup result as a hypothesis (the in-definition `match h :` binder makes
direct rewriting impossible). -/

lemma buildChildren_nil (model : SchemaModel) (opts : BuildOptions)
    (fields : List (String × Json)) (path : String) :
    buildChildren model opts [] fields path = Except.ok [] := by
  simp [buildChildren]

lemma buildChildren_cons_none (model : SchemaModel) (opts : BuildOptions)
    (c : ElementDef) (cs : List ElementDef) (fields : List (String × Json))
    (path : String) (h : lookupCI fields c.name = none) :
    buildChildren model opts (c :: cs) fields path =
      buildChildren model opts cs fields path := by
  simp only [buildChildren]
  split
  next heq => rfl
  next heq => rw [heq] at h <;> cases h
  next items heq => rw [heq] at h <;> cases h
  next v h1 h2 heq => rw [heq] at h <;> cases h

lemma buildChildren_cons_null (model : SchemaModel) (opts : BuildOptions)
    (c : ElementDef) (cs : List ElementDef) (fields : List (String × Json))
    (path : String) (h : lookupCI fields c.name = some Json.null) :
    buildChildren model opts (c :: cs) fields path =
      buildChildren model opts cs fields path := by
  simp only [buildChildren]
  split
  next heq => rw [heq] at h <;> cases h
  next heq => rfl
  next items heq =>
    rw [heq] at h
    injection h with h2
    cases h2
  next v h1 h2 heq =>
    rw [heq] at h
    injection h with h3
    exact (h1 h3).elim

lemma buildChildren_cons_arr (model : SchemaModel) (opts : BuildOptions)
    (c : ElementDef) (cs : List ElementDef) (fields : List (String × Json))
    (path : String) (items : List Json)
    (h : lookupCI fields c.name = some (Json.arr items)) :
    buildChildren model opts (c :: cs) fields path =
      (match buildItems model opts c items path 0 with
      | Except.error e => Except.error e
      | Except.ok nodes =>
        match buildChildren model opts cs fields path with
        | Except.error e => Except.error e
        | Except.ok rest => Except.ok (nodes ++ rest)) := by
  simp only [buildChildren]
  split
  next heq => rw [heq] at h <;> cases h
  next heq =>
    rw [heq] at h
    injection h with h2
    cases h2
  next items2 heq =>
    rw [heq] at h
    injection h with h2
    injection h2 with h3
    rw [h3]
  next v h1 h2 heq =>
    rw [heq] at h
    injection h with h3
    exact (h2 items h3).elim

lemma buildChildren_cons_str (model : SchemaModel) (opts : BuildOptions)
    (c : ElementDef) (cs : List ElementDef) (fields : List (String × Json))
    (path : String) (sv : String)
    (h : lookupCI fields c.name = some (Json.str sv)) :
    buildChildren model opts (c :: cs) fields path =
      (match buildElement model opts c (Json.str sv)
          (path ++ "." ++ c.name) with
      | Except.error e => Except.error e
      | Except.ok (as, contents) =>
        match buildChildren model opts cs fields path with
        | Except.error e => Except.error e
        | Except.ok rest =>
          Except.ok (XmlContent.elem c.name as contents :: rest)) := by
  simp only [buildChildren]
  split
  next heq => rw [heq] at h <;> cases h
  next heq =>
    rw [heq] at h
    injection h with h2
    cases h2
  next items2 heq =>
    rw [heq] at h
    injection h with h2
    cases h2
  next v h1 h2 heq =>
    rw [heq] at h
    injection h with h3
    rw [h3]

/-- C9: when a child's JSON value is an array, the parent creates the child
node before delegating, and `buildElement` returns no content for a null
value — so every null item still yields an emitted empty child tag, one per
index; only a null (or absent) singleton child value leads to the child
being omitted entirely. -/
theorem c9_null_array_item_emits_empty_tag (model : SchemaModel)
    (opts : BuildOptions) (path : String) (el : ElementDef)
    (ct : ComplexTypeDef) (c : ElementDef)
    (hct : resolveComplexTypeForElement model el = some ct)
    (htc : ct.hasTextContent = false)
    (hattrs : getAttributesForElement model el = [])
    (hch : getChildElementsForElement model el = [c])
    (hwc : hasWildcardForElement model el = false) :
    (∀ items : List Json, (∀ it ∈ items, it = Json.null) →
      buildElement model opts el (Json.obj [(c.name, Json.arr items)]) path =
        Except.ok ([], items.map (fun _ => XmlContent.elem c.name [] []))) ∧
      buildElement model opts el (Json.obj [(c.name, Json.null)]) path =
        Except.ok ([], []) := by
  constructor
  · intro items hnull
    simp only [buildElement, hct, htc, hattrs, hch, hwc]
    rw [buildChildren_cons_arr model opts c [] [(c.name, Json.arr items)]
      path items (by simp [lookupCI, List.lookup])]
    rw [buildItems_all_null model opts c path items 0 hnull]
    rw [buildChildren_nil]
    simp [buildAttrs]
  · simp only [buildElement, hct, htc, hattrs, hch, hwc]
    rw [buildChildren_cons_null model opts c [] [(c.name, Json.null)]
      path (by simp [lookupCI, List.lookup])]
    rw [buildChildren_nil]
    simp [buildAttrs]

def c9C : ElementDef := .mk "c" (some "xs:string") none 0 .unbounded [] [] true
def c9Ct : ComplexTypeDef := .mk "CT" .sequence [c9C] [] false none false
def c9El : ElementDef := .mk "p" (some "CT") none 1 (.bounded 1) [] [] false

/-- A model with one unbounded child, for the C9 witness. -/
def c9Model : SchemaModel :=
  ⟨"p", [("p", c9El)], [("CT", c9Ct)], [], none⟩

/-- Default conversion options for the C9 witness. -/
def c9Opts : BuildOptions := ⟨false, true, "UTF-8", "@", "#text", none⟩

/-- C9 witness: `{"c": [null]}` emits one empty `<c/>` tag, while
`{"c": null}` emits no `c` child at all. -/
theorem c9_witness :
    buildElement c9Model c9Opts c9El
        (Json.obj [(c9C.name, Json.arr [Json.null])]) "$.p" =
      Except.ok ([], [XmlContent.elem c9C.name [] []]) ∧
      buildElement c9Model c9Opts c9El
        (Json.obj [(c9C.name, Json.null)]) "$.p" = Except.ok ([], []) := by
  have h := c9_null_array_item_emits_empty_tag c9Model c9Opts "$.p" c9El
    c9Ct c9C
    (by simp [resolveComplexTypeForElement, c9El, c9Model, mget,
      List.find?, c9Ct])
    rfl
    (by simp [getAttributesForElement, resolveComplexTypeForElement, c9El,
      c9Model, mget, List.find?, c9Ct, resolveAllAttributes])
    (by simp [getChildElementsForElement, resolveComplexTypeForElement,
      c9El, c9Model, mget, List.find?, c9Ct, resolveAllElements])
    (by simp [hasWildcardForElement, resolveComplexTypeForElement, c9El,
      c9Model, mget, List.find?, c9Ct, resolveHasWildcard])
  exact ⟨h.1 [Json.null] (by simp), h.2⟩

/-! #### C7: choice compositor semantics -/

/-- C7: for an element whose resolved type is a `choice` of branches
`a, b, c` (all simple leaves on the taken branch), supplying null for `a`
and `b` and `"x"` for `c` emits exactly the one branch element `c` with
text `"x"`; supplying null for every branch emits no children at all (the
parent tag itself, created by its own parent, stays empty); and a null
value for the parent element at its position in the grandparent emits no
parent element at all. -/
theorem c7_choice_semantics (model : SchemaModel) (opts : BuildOptions)
    (path : String) (el g : ElementDef) (ct gct : ComplexTypeDef)
    (a b c : ElementDef)
    (hct : resolveComplexTypeForElement model el = some ct)
    (hcomp : ct.compositor = Compositor.choice)
    (htc : ct.hasTextContent = false)
    (hattrs : getAttributesForElement model el = [])
    (hch : getChildElementsForElement model el = [a, b, c])
    (hwc : hasWildcardForElement model el = false)
    (hcc : resolveComplexTypeForElement model c = none)
    (hac : a.name ≠ c.name) (hbc : b.name ≠ c.name)
    (hgct : resolveComplexTypeForElement model g = some gct)
    (hgtc : gct.hasTextContent = false)
    (hgattrs : getAttributesForElement model g = [])
    (hgch : getChildElementsForElement model g = [el])
    (hgwc : hasWildcardForElement model g = false) :
    buildElement model opts el
        (Json.obj [(a.name, Json.null), (b.name, Json.null),
          (c.name, Json.str "x")]) path =
      Except.ok ([], [XmlContent.elem c.name [] [XmlContent.text "x"]]) ∧
      buildElement model opts el
        (Json.obj [(a.name, Json.null), (b.name, Json.null),
          (c.name, Json.null)]) path =
      Except.ok ([], []) ∧
      buildElement model opts g (Json.obj [(el.name, Json.null)]) path =
      Except.ok ([], []) := by
  obtain ⟨an, atn, aict, amin, amax, aats, ach, aar⟩ := a
  obtain ⟨bn, btn, bict, bmin, bmax, bats, bch, bar⟩ := b
  obtain ⟨cn, ctn, cict, cmin, cmax, cats, cch, car⟩ := c
  obtain ⟨en, etn, eict, emin, emax, eats, ech, ear⟩ := el
  simp only [ElementDef.name] at hac hbc ⊢
  refine ⟨?_, ?_, ?_⟩
  · simp only [buildElement, hct, htc, hattrs, hch, hwc]
    have hA : lookupCI [(an, Json.null), (bn, Json.null),
        (cn, Json.str "x")] an = some Json.null := by
      simp [lookupCI, List.lookup]
    have hB : lookupCI [(an, Json.null), (bn, Json.null),
        (cn, Json.str "x")] bn = some Json.null := by
      by_cases hba : (bn == an) <;> simp [lookupCI, List.lookup, hba]
    have hC : lookupCI [(an, Json.null), (bn, Json.null),
        (cn, Json.str "x")] cn = some (Json.str "x") := by
      have h1 : (cn == an) = false := by simp [Ne.symm hac]
      have h2 : (cn == bn) = false := by simp [Ne.symm hbc]
      simp [lookupCI, List.lookup, h1, h2]
    rw [buildChildren_cons_null model opts _ [_, _] _ path hA,
      buildChildren_cons_null model opts _ [_] _ path hB,
      buildChildren_cons_str model opts _ [] _ path "x" hC,
      buildChildren_nil]
    simp only [buildElement, hcc]
    simp [buildAttrs, jsToString]
  · simp only [buildElement, hct, htc, hattrs, hch, hwc]
    have hA : lookupCI [(an, Json.null), (bn, Json.null),
        (cn, Json.null)] an = some Json.null := by
      simp [lookupCI, List.lookup]
    have hB : lookupCI [(an, Json.null), (bn, Json.null),
        (cn, Json.null)] bn = some Json.null := by
      by_cases hba : (bn == an) <;> simp [lookupCI, List.lookup, hba]
    have hC : lookupCI [(an, Json.null), (bn, Json.null),
        (cn, Json.null)] cn = some Json.null := by
      by_cases h1 : (cn == an) <;> by_cases h2 : (cn == bn) <;>
        simp [lookupCI, List.lookup, h1, h2]
    rw [buildChildren_cons_null model opts _ [_, _] _ path hA,
      buildChildren_cons_null model opts _ [_] _ path hB,
      buildChildren_cons_null model opts _ [] _ path hC,
      buildChildren_nil]
    simp [buildAttrs]
  · simp only [buildElement, hgct, hgtc, hgattrs, hgch, hgwc]
    have hE : lookupCI [(en, Json.null)] en = some Json.null := by
      simp [lookupCI, List.lookup]
    rw [buildChildren_cons_null model opts _ [] _ path hE,
      buildChildren_nil]
    simp [buildAttrs]

def c7A : ElementDef := .mk "A" (some "xs:string") none 1 (.bounded 1) [] [] false
def c7B : ElementDef := .mk "B" (some "xs:string") none 1 (.bounded 1) [] [] false
def c7C : ElementDef := .mk "C" (some "xs:string") none 1 (.bounded 1) [] [] false
def c7Ct : ComplexTypeDef := .mk "ChT" .choice [c7A, c7B, c7C] [] false none false
def c7P : ElementDef := .mk "P" (some "ChT") none 1 (.bounded 1) [] [] false
def c7Gct : ComplexTypeDef := .mk "GT" .sequence [c7P] [] false none false
def c7G : ElementDef := .mk "G" (some "GT") none 1 (.bounded 1) [] [] false

/-- A model with a three-branch choice type, for the C7 witness. -/
def c7Model : SchemaModel :=
  ⟨"G", [("G", c7G)], [("ChT", c7Ct), ("GT", c7Gct)], [], none⟩

/-- Default conversion options for the C7 witness. -/
def c7Opts : BuildOptions := ⟨false, true, "UTF-8", "@", "#text", none⟩

/-- C7 witness: the choice-semantics theorem at a concrete three-branch
choice `A | B | C`. -/
theorem c7_witness :
    buildElement c7Model c7Opts c7P
        (Json.obj [("A", Json.null), ("B", Json.null),
          ("C", Json.str "x")]) "$.G.P" =
      Except.ok ([], [XmlContent.elem "C" [] [XmlContent.text "x"]]) ∧
      buildElement c7Model c7Opts c7P
        (Json.obj [("A", Json.null), ("B", Json.null),
          ("C", Json.null)]) "$.G.P" =
      Except.ok ([], []) ∧
      buildElement c7Model c7Opts c7G (Json.obj [("P", Json.null)]) "$.G.P" =
      Except.ok ([], []) :=
  c7_choice_semantics c7Model c7Opts "$.G.P" c7P c7G c7Ct c7Gct c7A c7B c7C
    (by simp [resolveComplexTypeForElement, c7P, c7Model, mget, List.find?,
      c7Ct])
    rfl
    rfl
    (by simp [getAttributesForElement, resolveComplexTypeForElement, c7P,
      c7Model, mget, List.find?, c7Ct, resolveAllAttributes])
    (by simp [getChildElementsForElement, resolveComplexTypeForElement,
      c7P, c7Model, mget, List.find?, c7Ct, resolveAllElements])
    (by simp [hasWildcardForElement, resolveComplexTypeForElement, c7P,
      c7Model, mget, List.find?, c7Ct, resolveHasWildcard])
    (by simp [resolveComplexTypeForElement, c7C, c7Model, mget, List.find?])
    (by simp [c7A, c7C])
    (by simp [c7B, c7C])
    (by simp [resolveComplexTypeForElement, c7G, c7Model, mget, List.find?,
      c7Gct])
    rfl
    (by simp [getAttributesForElement, resolveComplexTypeForElement, c7G,
      c7Model, mget, List.find?, c7Gct, resolveAllAttributes])
    (by simp [getChildElementsForElement, resolveComplexTypeForElement,
      c7G, c7Model, mget, List.find?, c7Gct, resolveAllElements])
    (by simp [hasWildcardForElement, resolveComplexTypeForElement, c7G,
      c7Model, mget, List.find?, c7Gct, resolveHasWildcard])

/-! #### C6: case-insensitive key lookup, schema-cased output -/

def c6Cnpj : ElementDef := .mk "CNPJ" (some "xs:string") none 1 (.bounded 1) [] [] false
def c6Ct : ComplexTypeDef := .mk "DocType" .sequence [c6Cnpj] [] false none false
def c6Doc : ElementDef := .mk "doc" (some "DocType") none 1 (.bounded 1) [] [] false

/-- A model declaring one child `CNPJ`, for C6. -/
def c6Model : SchemaModel :=
  ⟨"doc", [("doc", c6Doc)], [("DocType", c6Ct)], [], none⟩

/-- Default conversion options for C6. -/
def c6Opts : BuildOptions := ⟨false, true, "UTF-8", "@", "#text", none⟩

/-- Generic evaluation: an element with a single simple child bound to a
string value (via case-insensitive lookup) emits exactly that child with
the schema-declared name and the string as text. -/
lemma buildElement_single_str_child (model : SchemaModel)
    (opts : BuildOptions) (path : String) (el : ElementDef)
    (ct : ComplexTypeDef) (c : ElementDef) (sv : String)
    (fields : List (String × Json))
    (hct : resolveComplexTypeForElement model el = some ct)
    (htc : ct.hasTextContent = false)
    (hattrs : getAttributesForElement model el = [])
    (hch : getChildElementsForElement model el = [c])
    (hwc : hasWildcardForElement model el = false)
    (hcc : resolveComplexTypeForElement model c = none)
    (hlook : lookupCI fields c.name = some (Json.str sv)) :
    buildElement model opts el (Json.obj fields) path =
      Except.ok ([], [XmlContent.elem c.name [] [XmlContent.text sv]]) := by
  simp only [buildElement, hct, htc, hattrs, hch, hwc]
  rw [buildChildren_cons_str model opts c [] fields path sv hlook,
    buildChildren_nil]
  simp only [buildElement, hcc]
  simp [buildAttrs, jsToString]

/-- C6: `lookupCI` tries an exact own-key match first and falls back to the
first case-insensitive key match, while the Builder always emits the
schema's declared casing: `{"CNPJ": "1"}` and `{"cnpj": "1"}` against a
schema declaring `CNPJ` both produce `<doc><CNPJ>1</CNPJ></doc>`. -/
theorem c6_case_insensitive_lookup_schema_casing :
    (∀ (fields : List (String × Json)) (name : String) (v : Json),
      fields.lookup name = some v → lookupCI fields name = some v) ∧
      (∀ (fields : List (String × Json)) (name : String)
          (p : String × Json),
        fields.lookup name = none →
        fields.find? (fun q => strLower q.1 == strLower name) = some p →
        lookupCI fields name = some p.2) ∧
      buildXml c6Model [("CNPJ", Json.str "1")] c6Opts =
        Except.ok (XmlContent.elem "doc" []
          [XmlContent.elem "CNPJ" [] [XmlContent.text "1"]]) ∧
      buildXml c6Model [("cnpj", Json.str "1")] c6Opts =
        Except.ok (XmlContent.elem "doc" []
          [XmlContent.elem "CNPJ" [] [XmlContent.text "1"]]) := by
  have hGC : getChildElementsForElement c6Model c6Doc = [c6Cnpj] := by
    simp [getChildElementsForElement, resolveComplexTypeForElement, c6Doc,
      c6Model, mget, List.find?, c6Ct, resolveAllElements]
  have hGA : getAttributesForElement c6Model c6Doc = [] := by
    simp [getAttributesForElement, resolveComplexTypeForElement, c6Doc,
      c6Model, mget, List.find?, c6Ct, resolveAllAttributes]
  have hWC : hasWildcardForElement c6Model c6Doc = false := by
    simp [hasWildcardForElement, resolveComplexTypeForElement, c6Doc,
      c6Model, mget, List.find?, c6Ct, resolveHasWildcard]
  refine ⟨?_, ?_, ?_, ?_⟩
  · intro fields name v h
    unfold lookupCI
    rw [h]
  · intro fields name p h1 h2
    unfold lookupCI
    rw [h1, h2]
    rfl
  · have hroot : lookupCI [("CNPJ", Json.str "1")] "doc" = none := rfl
    have hbe := buildElement_single_str_child c6Model c6Opts "$.doc" c6Doc
      c6Ct c6Cnpj "1" [("CNPJ", Json.str "1")] rfl rfl hGA hGC hWC rfl rfl
    simp only [buildXml]
    rw [show c6Model.rootElement = "doc" from rfl,
      show lookupElement c6Model "doc" = some c6Doc from rfl,
      show c6Opts.targetNamespace = none from rfl]
    simp [hroot, hbe, attSet]
    rfl
  · have hroot : lookupCI [("cnpj", Json.str "1")] "doc" = none := rfl
    have hbe := buildElement_single_str_child c6Model c6Opts "$.doc" c6Doc
      c6Ct c6Cnpj "1" [("cnpj", Json.str "1")] rfl rfl hGA hGC hWC rfl rfl
    simp only [buildXml]
    rw [show c6Model.rootElement = "doc" from rfl,
      show lookupElement c6Model "doc" = some c6Doc from rfl,
      show c6Opts.targetNamespace = none from rfl]
    simp [hroot, hbe, attSet]
    rfl

/-- C6 witness: the lookup clauses of the theorem applied at concrete
inputs (an exact hit, then a case-insensitive hit). -/
theorem c6_witness :
    lookupCI [("K", Json.str "v")] "K" = some (Json.str "v") ∧
      lookupCI [("CNPJ", Json.str "1")] "cnpj" = some (Json.str "1") :=
  ⟨c6_case_insensitive_lookup_schema_casing.1 [("K", Json.str "v")] "K"
      (Json.str "v") rfl,
    c6_case_insensitive_lookup_schema_casing.2.1 [("CNPJ", Json.str "1")]
      "cnpj" ("CNPJ", Json.str "1") rfl rfl⟩

/-! #### C1: when the Builder raises a MappingError -/

def c1C : ElementDef := .mk "c" (some "xs:string") none 1 (.bounded 1) [] [] false
def c1Ct : ComplexTypeDef := .mk "RT" .sequence [c1C] [] false none false
def c1Root : ElementDef := .mk "r" (some "RT") none 1 (.bounded 1) [] [] false

/-- A model whose single child `c` has `maxOccurs = 1` (not an array). -/
def c1Model : SchemaModel :=
  ⟨"r", [("r", c1Root)], [("RT", c1Ct)], [], none⟩

/-- Default conversion options for C1. -/
def c1Opts : BuildOptions := ⟨false, true, "UTF-8", "@", "#text", none⟩

/-- A model whose configured root element is not declared. -/
def c1NoRoot : SchemaModel := ⟨"zz", [], [], [], none⟩

lemma c1_array_child_eval :
    buildXml c1Model [("c", Json.arr [Json.str "a", Json.str "b"])] c1Opts =
      Except.ok (XmlContent.elem "r" []
        [XmlContent.elem "c" [] [XmlContent.text "a"],
         XmlContent.elem "c" [] [XmlContent.text "b"]]) := by
  have hGC : getChildElementsForElement c1Model c1Root = [c1C] := by
    simp [getChildElementsForElement, resolveComplexTypeForElement, c1Root,
      c1Model, mget, List.find?, c1Ct, resolveAllElements]
  have hGA : getAttributesForElement c1Model c1Root = [] := by
    simp [getAttributesForElement, resolveComplexTypeForElement, c1Root,
      c1Model, mget, List.find?, c1Ct, resolveAllAttributes]
  have hWC : hasWildcardForElement c1Model c1Root = false := by
    simp [hasWildcardForElement, resolveComplexTypeForElement, c1Root,
      c1Model, mget, List.find?, c1Ct, resolveHasWildcard]
  have hItems : buildItems c1Model c1Opts c1C [Json.str "a", Json.str "b"]
      "$.r" 0 = Except.ok [XmlContent.elem "c" [] [XmlContent.text "a"],
        XmlContent.elem "c" [] [XmlContent.text "b"]] := by
    simp [buildItems, buildElement, resolveComplexTypeForElement, c1C,
      c1Model, mget, List.find?, jsToString]
  have hbe : buildElement c1Model c1Opts c1Root
      (Json.obj [("c", Json.arr [Json.str "a", Json.str "b"])]) "$.r" =
      Except.ok ([], [XmlContent.elem "c" [] [XmlContent.text "a"],
        XmlContent.elem "c" [] [XmlContent.text "b"]]) := by
    simp only [buildElement,
      show resolveComplexTypeForElement c1Model c1Root = some c1Ct from rfl,
      show c1Ct.hasTextContent = false from rfl, hGC, hGA, hWC]
    rw [buildChildren_cons_arr c1Model c1Opts c1C []
      [("c", Json.arr [Json.str "a", Json.str "b"])] "$.r"
      [Json.str "a", Json.str "b"] rfl]
    rw [hItems, buildChildren_nil]
    simp [buildAttrs]
  have hroot : lookupCI [("c", Json.arr [Json.str "a", Json.str "b"])]
      "r" = none := rfl
  simp only [buildXml]
  rw [show c1Model.rootElement = "r" from rfl,
    show lookupElement c1Model "r" = some c1Root from rfl,
    show c1Opts.targetNamespace = none from rfl]
  simp [hroot, hbe, attSet]

/-- C1 counterexample: an array value at a child position whose ElementDef
does not declare multiplicity (`isArray = false`, `maxOccurs = 1`) does
NOT raise a MappingError — the builder expands it into one emitted element
per item with no multiplicity check, so the claimed "exactly when"
characterization fails. -/
theorem c1_counterexample :
    c1C.isArray = false ∧
      buildXml c1Model [("c", Json.arr [Json.str "a", Json.str "b"])]
        c1Opts =
        Except.ok (XmlContent.elem "r" []
          [XmlContent.elem "c" [] [XmlContent.text "a"],
           XmlContent.elem "c" [] [XmlContent.text "b"]]) :=
  ⟨rfl, c1_array_child_eval⟩

/-- C1 (amended): buildXml raises a MappingError with a JSON-path locator
exactly when the configured root element name is absent from the schema
(path `$`), or when an array value is passed directly to `buildElement` —
that is, the root's own value is an array, or an array item is itself an
array — regardless of the position's declared multiplicity; an array at a
child position is always expanded into one element per item with no
`isArray`/`maxOccurs` check (multiplicity is only enforced by the strict
validator).  This holds identically in strict and non-strict mode, since
the builder takes no mode flag. -/
theorem c1_mapping_error_conditions :
    (∀ (model : SchemaModel) (json : List (String × Json))
        (opts : BuildOptions),
      lookupElement model model.rootElement = none →
      buildXml model json opts = Except.error ⟨"$",
        "Root element \"" ++ model.rootElement ++
          "\" not found in schema."⟩) ∧
      (∀ (model : SchemaModel) (opts : BuildOptions) (el : ElementDef)
          (xs : List Json) (path : String),
        buildElement model opts el (Json.arr xs) path =
          Except.error ⟨path,
            "Unexpected array passed to buildElement for \"" ++ el.name ++
              "\". Arrays should be handled by the parent."⟩) ∧
      c1C.isArray = false ∧
      buildXml c1Model [("c", Json.arr [Json.str "a", Json.str "b"])]
        c1Opts =
        Except.ok (XmlContent.elem "r" []
          [XmlContent.elem "c" [] [XmlContent.text "a"],
           XmlContent.elem "c" [] [XmlContent.text "b"]]) := by
  refine ⟨?_, ?_, rfl, c1_array_child_eval⟩
  · intro model json opts h
    simp only [buildXml]
    rw [h]
  · intro model opts el xs path
    simp [buildElement]

/-- C1 witness: the amended theorem applied at a model with a missing root
element and at a direct array value. -/
theorem c1_witness :
    buildXml c1NoRoot [] c1Opts =
      Except.error ⟨"$", "Root element \"zz\" not found in schema."⟩ ∧
      buildElement c1NoRoot c1Opts c1Root (Json.arr []) "$.r" =
      Except.error ⟨"$.r", "Unexpected array passed to buildElement for \"r\". Arrays should be handled by the parent."⟩ :=
  ⟨c1_mapping_error_conditions.1 c1NoRoot [] c1Opts rfl,
    c1_mapping_error_conditions.2.1 c1NoRoot c1Opts c1Root [] "$.r"⟩

/-! #### Parser step lemmas -/

lemma parseOne_visited (fs : List (String × XsdFile)) (path : String)
    (visited : List String) (h : path ∈ visited) :
    parseOne fs path visited =
      (Except.ok emptyModel, ⟨visited, fun _ hh => hh⟩) := by
  rw [parseOne.eq_def, dif_pos h]

lemma parseOne_notfound (fs : List (String × XsdFile)) (path : String)
    (visited : List String) (hnv : path ∉ visited)
    (hf : mget fs path = none) :
    parseOne fs path visited =
      (Except.error ("Cannot read XSD file: " ++ path),
       ⟨path :: visited, fun _ hx => List.mem_cons_of_mem _ hx⟩) := by
  rw [parseOne.eq_def, dif_neg hnv]
  split
  next heq => rfl
  next f heq => rw [heq] at hf <;> cases hf

lemma parseOne_found (fs : List (String × XsdFile)) (path : String)
    (visited : List String) (f : XsdFile) (hnv : path ∉ visited)
    (hf : mget fs path = some f) :
    (parseOne fs path visited).1 =
      Except.ok (assembleModel f
        (parseMany fs (f.includes.filter (fun l => l ≠ ""))
          (path :: visited)).1
        ((f.imports.filter (fun pr => pr.2 ≠ "")).zip
          (parseMany fs
            ((f.imports.filter (fun pr => pr.2 ≠ "")).map (fun pr => pr.2))
            (parseMany fs (f.includes.filter (fun l => l ≠ ""))
              (path :: visited)).2.1).1)) ∧
      (parseOne fs path visited).2.1 =
        (parseMany fs
          ((f.imports.filter (fun pr => pr.2 ≠ "")).map (fun pr => pr.2))
          (parseMany fs (f.includes.filter (fun l => l ≠ ""))
            (path :: visited)).2.1).2.1 := by
  rw [parseOne.eq_def, dif_neg hnv]
  split
  next heq => rw [heq] at hf <;> cases hf
  next f2 heq =>
    obtain rfl : f = f2 := by
      rw [heq] at hf
      exact (Option.some.inj hf).symm
    rcases hpm1 : parseMany fs (f.includes.filter (fun l => l ≠ ""))
        (path :: visited) with ⟨incResults, ⟨v1, hv1⟩⟩
    rcases hpm2 : parseMany fs
        ((f.imports.filter (fun pr => pr.2 ≠ "")).map (fun pr => pr.2))
        v1 with ⟨impResults, ⟨v2, hv2⟩⟩
    simp

lemma parseMany_nil (fs : List (String × XsdFile)) (visited : List String) :
    parseMany fs [] visited = ([], ⟨visited, fun _ h => h⟩) := by
  rw [parseMany.eq_def]

lemma parseMany_cons (fs : List (String × XsdFile)) (l : String)
    (ls : List String) (visited : List String) :
    parseMany fs (l :: ls) visited =
      (match parseOne fs l visited with
       | (r, ⟨v1, hv1⟩) =>
         match parseMany fs ls v1 with
         | (rs, ⟨v2, hv2⟩) =>
           (r :: rs, ⟨v2, fun _ hx => hv2 (hv1 hx)⟩)) := by
  rw [parseMany.eq_def]

lemma parseMany_cons_comp (fs : List (String × XsdFile)) (l : String)
    (ls : List String) (visited : List String) :
    (parseMany fs (l :: ls) visited).1 =
      (parseOne fs l visited).1 ::
        (parseMany fs ls (parseOne fs l visited).2.1).1 ∧
      (parseMany fs (l :: ls) visited).2.1 =
        (parseMany fs ls (parseOne fs l visited).2.1).2.1 := by
  rw [parseMany_cons]
  rcases h1 : parseOne fs l visited with ⟨r, ⟨v1, hv1⟩⟩
  rcases h2 : parseMany fs ls v1 with ⟨rs, ⟨v2, hv2⟩⟩
  simp [h2]

/-! #### C4: recursive parsing terminates on include/import cycles -/

def c4ElRootA : ElementDef := .mk "rootA" (some "TA") none 1 (.bounded 1) [] [] false
def c4CtTA : ComplexTypeDef := .mk "TA" .sequence [] [] false none false
def c4CtTB : ComplexTypeDef := .mk "TB" .sequence [] [] false none false

/-- File `a`: declares element `rootA` and type `TA`, includes `b`. -/
def c4FileA : XsdFile := ⟨none, [], [c4ElRootA], [c4CtTA], [], ["b"], []⟩

/-- File `b`: declares type `TB` and imports `a` — a mutual reference
cycle through a mix of one include and one import edge. -/
def c4FileB : XsdFile := ⟨none, [], [], [c4CtTB], [], [], [("nsA", "a")]⟩

/-- The two-file mutually referencing file system. -/
def c4Fs : List (String × XsdFile) := [("a", c4FileA), ("b", c4FileB)]

/-- The model produced for file `b` inside the cycle. -/
def c4ModelB : SchemaModel := ⟨"", [], [("TB", c4CtTB)], [], none⟩

/-- The final model for file `a`: the union of both files' named types,
each exactly once. -/
def c4ModelA : SchemaModel :=
  ⟨"rootA", [("rootA", c4ElRootA)],
   [("TA", c4CtTA), ("TB", c4CtTB)], [], none⟩

/-- C4: the recursion threads a visited set of resolved source identities
(the accepted well-founded definition of `parseOne`/`parseMany` is itself
the termination argument, valid for every file system, including mutual
include/import cycles); a call on an already-visited identity returns the
empty Model with an unchanged visited set instead of recursing; and
parsing a concrete mutually referencing pair (a includes b, b imports a)
yields the union of both files' named types with each name present
exactly once. -/
theorem c4_parser_cycle_safety :
    (∀ (fs : List (String × XsdFile)) (path : String)
        (visited : List String), path ∈ visited →
      (parseOne fs path visited).1 = Except.ok emptyModel ∧
        (parseOne fs path visited).2.1 = visited) ∧
      parseXsd c4Fs "a" = Except.ok c4ModelA ∧
      c4ModelA.complexTypes.map (fun p => p.1) = ["TA", "TB"] := by
  refine ⟨?_, ?_, rfl⟩
  · intro fs path visited h
    rw [parseOne_visited fs path visited h]
    exact ⟨rfl, rfl⟩
  · have hB : (parseOne c4Fs "b" ["a"]).1 = Except.ok c4ModelB ∧
        (parseOne c4Fs "b" ["a"]).2.1 = ["b", "a"] := by
      have h2 := parseOne_found c4Fs "b" ["a"] c4FileB (by simp) rfl
      have hv := parseOne_visited c4Fs "a" ["b", "a"] (by simp)
      rw [h2.1, h2.2]
      rw [show c4FileB.includes.filter (fun l => l ≠ "") =
        ([] : List String) from rfl]
      rw [parseMany_nil]
      rw [show c4FileB.imports.filter (fun pr => pr.2 ≠ "") =
        [("nsA", "a")] from rfl]
      rw [show ([("nsA", "a")] : List (String × String)).map
        (fun pr => pr.2) = ["a"] from rfl]
      simp [parseMany_cons_comp, parseMany_nil, hv]
      rfl
    have hA := parseOne_found c4Fs "a" [] c4FileA (by simp) rfl
    show (parseOne c4Fs "a" []).1 = _
    rw [hA.1]
    rw [show c4FileA.includes.filter (fun l => l ≠ "") = ["b"] from rfl]
    rw [show c4FileA.imports.filter (fun pr => pr.2 ≠ "") =
      ([] : List (String × String)) from rfl]
    simp [parseMany_cons_comp, parseMany_nil, hB.1, hB.2]
    rfl

/-- C4 witness: the already-visited clause applied at a concrete call. -/
theorem c4_witness :
    (parseOne c4Fs "a" ["a"]).1 = Except.ok emptyModel ∧
      (parseOne c4Fs "a" ["a"]).2.1 = ["a"] :=
  c4_parser_cycle_safety.1 c4Fs "a" ["a"] (by simp)

/-! #### C5: first-writer-wins merges and key uniqueness -/

lemma find?_append_first {α : Type} (l₁ l₂ : List α) (p : α → Bool) :
    (l₁ ++ l₂).find? p = ((l₁.find? p).orElse (fun _ => l₂.find? p)) := by
  induction l₁ with
  | nil => simp
  | cons x xs ih =>
    by_cases hx : p x
    · simp [List.find?, hx]
    · have hx2 : p x = false := by simpa using hx
      simp [List.find?, hx2, ih]

lemma mget_append_left {α : Type} {m : List (String × α)} {k : String}
    (extra : List (String × α)) (h : mhas m k = true) :
    mget (m ++ extra) k = mget m k := by
  unfold mhas at h
  unfold mget
  rw [find?_append_first]
  cases hf : m.find? (fun p => p.1 == k) with
  | none => rw [hf] at h; cases h
  | some p => simp [hf]

lemma mhas_append_left {α : Type} {m : List (String × α)} {k : String}
    (extra : List (String × α)) (h : mhas m k = true) :
    mhas (m ++ extra) k = true := by
  unfold mhas at h
  unfold mhas
  rw [find?_append_first]
  cases hf : m.find? (fun p => p.1 == k) with
  | none => rw [hf] at h; cases h
  | some p => simp [hf]

lemma mget_insIfAbsent_of_mhas {α : Type} {m : List (String × α)}
    {k : String} (k' : String) (v : α) (h : mhas m k = true) :
    mget (insIfAbsent m k' v) k = mget m k := by
  unfold insIfAbsent mset
  by_cases h2 : mhas m k'
  · simp [h2]
  · have h2f : mhas m k' = false := by simpa using h2
    rw [h2f]
    simp only [Bool.false_eq_true, if_false]
    exact mget_append_left [(k', v)] h

lemma mhas_insIfAbsent_mono {α : Type} {m : List (String × α)}
    {k : String} (k' : String) (v : α) (h : mhas m k = true) :
    mhas (insIfAbsent m k' v) k = true := by
  unfold insIfAbsent mset
  by_cases h2 : mhas m k'
  · simp [h2, h]
  · have h2f : mhas m k' = false := by simpa using h2
    rw [h2f]
    simp only [Bool.false_eq_true, if_false]
    exact mhas_append_left [(k', v)] h

lemma mhas_insIfAbsent_self {α : Type} (m : List (String × α))
    (k : String) (v : α) : mhas (insIfAbsent m k v) k = true := by
  unfold insIfAbsent mset
  by_cases h2 : mhas m k
  · simp [h2]
  · have h2f : mhas m k = false := by simpa using h2
    rw [h2f]
    simp only [Bool.false_eq_true, if_false]
    unfold mhas at h2f
    unfold mhas
    rw [find?_append_first]
    cases hf : m.find? (fun p => p.1 == k) with
    | some p => rw [hf] at h2f; cases h2f
    | none => simp [hf, List.find?]

lemma mergeNoOverwrite_pres {α : Type} (inc : List (String × α)) :
    ∀ (m : List (String × α)) (k : String), mhas m k = true →
      mget (mergeNoOverwrite m inc) k = mget m k ∧
        mhas (mergeNoOverwrite m inc) k = true := by
  induction inc with
  | nil =>
    intro m k h
    exact ⟨rfl, h⟩
  | cons p rest ih =>
    intro m k h
    unfold mergeNoOverwrite at ih ⊢
    simp only [List.foldl]
    have h1 := mget_insIfAbsent_of_mhas p.1 p.2 h
    have h2 := mhas_insIfAbsent_mono p.1 p.2 h
    obtain ⟨ih1, ih2⟩ := ih (insIfAbsent m p.1 p.2) k h2
    exact ⟨ih1.trans h1, ih2⟩

lemma prefixFold_pres {α : Type} (k0 : String) (v0 : α)
    (prefixes : List String) :
    ∀ (m : List (String × α)) (k : String), mhas m k = true →
      mget (prefixes.foldl
        (fun acc2 pfx => insIfAbsent acc2 (pfx ++ ":" ++ k0) v0) m) k =
        mget m k ∧
      mhas (prefixes.foldl
        (fun acc2 pfx => insIfAbsent acc2 (pfx ++ ":" ++ k0) v0) m) k =
        true := by
  induction prefixes with
  | nil =>
    intro m k h
    exact ⟨rfl, h⟩
  | cons q rest ih =>
    intro m k h
    simp only [List.foldl]
    have h1 := mget_insIfAbsent_of_mhas (q ++ ":" ++ k0) v0 h
    have h2 := mhas_insIfAbsent_mono (q ++ ":" ++ k0) v0 h
    obtain ⟨ih1, ih2⟩ := ih (insIfAbsent m (q ++ ":" ++ k0) v0) k h2
    exact ⟨ih1.trans h1, ih2⟩

lemma mergeImportTypes_pres {α : Type} (inc : List (String × α))
    (prefixes : List String) :
    ∀ (m : List (String × α)) (k : String), mhas m k = true →
      mget (mergeImportTypes m inc prefixes) k = mget m k ∧
        mhas (mergeImportTypes m inc prefixes) k = true := by
  induction inc with
  | nil =>
    intro m k h
    exact ⟨rfl, h⟩
  | cons p rest ih =>
    intro m k h
    unfold mergeImportTypes at ih ⊢
    simp only [List.foldl]
    have h1 := mget_insIfAbsent_of_mhas p.1 p.2 h
    have h2 := mhas_insIfAbsent_mono p.1 p.2 h
    obtain ⟨g1, g2⟩ := prefixFold_pres p.1 p.2 prefixes
      (insIfAbsent m p.1 p.2) k h2
    obtain ⟨ih1, ih2⟩ := ih _ k g2
    exact ⟨ih1.trans (g1.trans h1), ih2⟩

lemma prefixFold_registers {α : Type} (k0 : String) (v0 : α)
    (prefixes : List String) :
    ∀ (m : List (String × α)) (pfx : String), pfx ∈ prefixes →
      mhas (prefixes.foldl
        (fun acc2 q => insIfAbsent acc2 (q ++ ":" ++ k0) v0) m)
        (pfx ++ ":" ++ k0) = true := by
  induction prefixes with
  | nil =>
    intro m pfx hp
    cases hp
  | cons q rest ih =>
    intro m pfx hp
    simp only [List.foldl]
    rcases List.mem_cons.1 hp with rfl | hp2
    · exact (prefixFold_pres k0 v0 rest _ _
        (mhas_insIfAbsent_self m (pfx ++ ":" ++ k0) v0)).2
    · exact ih _ pfx hp2

lemma mergeImportTypes_cons {α : Type} (m : List (String × α))
    (p : String × α) (rest : List (String × α)) (prefixes : List String) :
    mergeImportTypes m (p :: rest) prefixes =
      mergeImportTypes
        (prefixes.foldl
          (fun acc2 pfx => insIfAbsent acc2 (pfx ++ ":" ++ p.1) p.2)
          (insIfAbsent m p.1 p.2)) rest prefixes := by
  unfold mergeImportTypes
  rfl

lemma mergeImportTypes_registers {α : Type} (inc : List (String × α))
    (prefixes : List String) :
    ∀ (m : List (String × α)) (k : String) (v : α) (pfx : String),
      (k, v) ∈ inc → pfx ∈ prefixes →
      mhas (mergeImportTypes m inc prefixes) k = true ∧
        mhas (mergeImportTypes m inc prefixes) (pfx ++ ":" ++ k) = true := by
  induction inc with
  | nil =>
    intro m k v pfx hk _
    cases hk
  | cons p rest ih =>
    intro m k v pfx hk hp
    rw [mergeImportTypes_cons]
    rcases List.mem_cons.1 hk with heq | hk2
    · subst heq
      constructor
      · exact (mergeImportTypes_pres rest prefixes _ k
          ((prefixFold_pres k v prefixes (insIfAbsent m k v) k
            (mhas_insIfAbsent_self m k v)).2)).2
      · exact (mergeImportTypes_pres rest prefixes _ (pfx ++ ":" ++ k)
          (prefixFold_registers k v prefixes (insIfAbsent m k v) pfx hp)).2
    · exact ih _ k v pfx hk2 hp

lemma not_mem_keys_of_mhas_false {α : Type} {m : List (String × α)}
    {k : String} (h : mhas m k = false) :
    k ∉ m.map (fun p => p.1) := by
  intro hmem
  obtain ⟨p, hp, hpk⟩ := List.mem_map.1 hmem
  unfold mhas at h
  cases hfind : m.find? (fun p => p.1 == k) with
  | some q => rw [hfind] at h; cases h
  | none =>
    rw [List.find?_eq_none] at hfind
    exact hfind p hp (by simp [hpk])

lemma keysNodup_mset {α : Type} {m : List (String × α)} (k : String)
    (v : α) (h : keysNodup m) : keysNodup (mset m k v) := by
  unfold mset
  by_cases hk : mhas m k
  · rw [if_pos hk]
    unfold keysNodup at h ⊢
    rw [List.map_map]
    have heq : ((fun p : String × α => p.1) ∘
        (fun p => if p.1 == k then (k, v) else p)) =
        fun p : String × α => p.1 := by
      funext p
      show (if p.1 == k then ((k, v) : String × α) else p).1 = p.1
      by_cases hb : p.1 == k
      · rw [if_pos hb]
        exact (by simpa using hb : p.1 = k).symm
      · rw [if_neg hb]
    rw [heq]
    exact h
  · have hkf : mhas m k = false := by simpa using hk
    rw [hkf]
    simp only [Bool.false_eq_true, if_false]
    unfold keysNodup at h ⊢
    rw [List.map_append]
    simp only [List.map_cons, List.map_nil]
    rw [List.nodup_append]
    refine ⟨h, List.nodup_singleton _, ?_⟩
    intro a ha hb
    simp only [List.mem_singleton] at hb
    subst hb
    exact not_mem_keys_of_mhas_false hkf ha

lemma keysNodup_insIfAbsent {α : Type} {m : List (String × α)}
    (k : String) (v : α) (h : keysNodup m) :
    keysNodup (insIfAbsent m k v) := by
  unfold insIfAbsent
  by_cases hk : mhas m k
  · rwa [if_pos hk]
  · have hkf : mhas m k = false := by simpa using hk
    rw [hkf]
    simp only [Bool.false_eq_true, if_false]
    exact keysNodup_mset k v h

lemma foldl_preserve {γ β : Type} (P : γ → Prop) (step : γ → β → γ)
    (hstep : ∀ acc x, P acc → P (step acc x)) :
    ∀ (l : List β) (acc : γ), P acc → P (l.foldl step acc) := by
  intro l
  induction l with
  | nil => intro acc h; exact h
  | cons x xs ih =>
    intro acc h
    exact ih _ (hstep acc x h)

lemma keysNodup_mergeNoOverwrite {α : Type} {m : List (String × α)}
    (inc : List (String × α)) (h : keysNodup m) :
    keysNodup (mergeNoOverwrite m inc) := by
  unfold mergeNoOverwrite
  exact foldl_preserve keysNodup _
    (fun acc x hacc => keysNodup_insIfAbsent x.1 x.2 hacc) inc m h

lemma keysNodup_mergeImportTypes {α : Type} {m : List (String × α)}
    (inc : List (String × α)) (prefixes : List String) (h : keysNodup m) :
    keysNodup (mergeImportTypes m inc prefixes) := by
  unfold mergeImportTypes
  refine foldl_preserve keysNodup _ ?_ inc m h
  intro acc x hacc
  exact foldl_preserve keysNodup _
    (fun acc2 q hacc2 => keysNodup_insIfAbsent (q ++ ":" ++ x.1) x.2 hacc2)
    prefixes _ (keysNodup_insIfAbsent x.1 x.2 hacc)

lemma assembleModel_nodup (f : XsdFile)
    (incResults : List (Except String SchemaModel))
    (impResults : List ((String × String) × Except String SchemaModel)) :
    keysNodup (assembleModel f incResults impResults).elements ∧
      keysNodup (assembleModel f incResults impResults).complexTypes ∧
      keysNodup (assembleModel f incResults impResults).simpleTypes := by
  have hnil : keysNodup ([] : List (String × ElementDef)) ∧
      keysNodup ([] : List (String × ComplexTypeDef)) ∧
      keysNodup ([] : List (String × SimpleTypeDef)) := by
    refine ⟨?_, ?_, ?_⟩ <;> simp [keysNodup]
  have h0e : keysNodup (f.topElements.foldl
      (fun m e => mset m e.name e) []) :=
    foldl_preserve keysNodup _
      (fun m x hm => keysNodup_mset x.name x hm) _ [] hnil.1
  have h0c : keysNodup (f.complexTypes.foldl
      (fun m ct => if ct.name == "" then m else mset m ct.name ct) []) := by
    refine foldl_preserve keysNodup _ ?_ _ [] hnil.2.1
    intro m x hm
    by_cases hx : (x.name == "") = true
    · rw [if_pos hx]; exact hm
    · rw [if_neg hx]; exact keysNodup_mset x.name x hm
  have h0s : keysNodup (f.simpleTypes.foldl
      (fun m st => if st.name == "" then m else mset m st.name st) []) := by
    refine foldl_preserve keysNodup _ ?_ _ [] hnil.2.2
    intro m x hm
    by_cases hx : (x.name == "") = true
    · rw [if_pos hx]; exact hm
    · rw [if_neg hx]; exact keysNodup_mset x.name x hm
  have h1 := foldl_preserve
    (fun acc : List (String × ElementDef) ×
        List (String × ComplexTypeDef) × List (String × SimpleTypeDef) =>
      keysNodup acc.1 ∧ keysNodup acc.2.1 ∧ keysNodup acc.2.2)
    (fun acc r =>
      match r with
      | Except.error _ => acc
      | Except.ok m =>
        (mergeNoOverwrite acc.1 m.elements,
         mergeNoOverwrite acc.2.1 m.complexTypes,
         mergeNoOverwrite acc.2.2 m.simpleTypes))
    (by
      intro acc r hacc
      cases r with
      | error e => exact hacc
      | ok mm =>
        exact ⟨keysNodup_mergeNoOverwrite mm.elements hacc.1,
          keysNodup_mergeNoOverwrite mm.complexTypes hacc.2.1,
          keysNodup_mergeNoOverwrite mm.simpleTypes hacc.2.2⟩)
    incResults
    (f.topElements.foldl (fun m e => mset m e.name e) [],
     f.complexTypes.foldl
       (fun m ct => if ct.name == "" then m else mset m ct.name ct) [],
     f.simpleTypes.foldl
       (fun m st => if st.name == "" then m else mset m st.name st) [])
    ⟨h0e, h0c, h0s⟩
  have h2 := foldl_preserve
    (fun acc : List (String × ElementDef) ×
        List (String × ComplexTypeDef) × List (String × SimpleTypeDef) =>
      keysNodup acc.1 ∧ keysNodup acc.2.1 ∧ keysNodup acc.2.2)
    (fun acc pr =>
      match pr.2 with
      | Except.error _ => acc
      | Except.ok m =>
        (mergeNoOverwrite acc.1 m.elements,
         mergeImportTypes acc.2.1 m.complexTypes
           (((f.prefixDecls.foldl
             (fun mm pu => if pu.1 == "xs" then mm else mset mm pu.1 pu.2)
             []).filter (fun pu => pu.2 == pr.1.1)).map (fun pu => pu.1)),
         mergeImportTypes acc.2.2 m.simpleTypes
           (((f.prefixDecls.foldl
             (fun mm pu => if pu.1 == "xs" then mm else mset mm pu.1 pu.2)
             []).filter (fun pu => pu.2 == pr.1.1)).map (fun pu => pu.1))))
    (by
      intro acc pr hacc
      cases hpr : pr.2 with
      | error e => simp only [hpr]; exact hacc
      | ok mm =>
        simp only [hpr]
        exact ⟨keysNodup_mergeNoOverwrite mm.elements hacc.1,
          keysNodup_mergeImportTypes mm.complexTypes _ hacc.2.1,
          keysNodup_mergeImportTypes mm.simpleTypes _ hacc.2.2⟩)
    impResults
    (incResults.foldl
      (fun acc r =>
        match r with
        | Except.error _ => acc
        | Except.ok m =>
          (mergeNoOverwrite acc.1 m.elements,
           mergeNoOverwrite acc.2.1 m.complexTypes,
           mergeNoOverwrite acc.2.2 m.simpleTypes))
      (f.topElements.foldl (fun m e => mset m e.name e) [],
       f.complexTypes.foldl
         (fun m ct => if ct.name == "" then m else mset m ct.name ct) [],
       f.simpleTypes.foldl
         (fun m st => if st.name == "" then m else mset m st.name st) []))
    h1
  exact ⟨h2.1, h2.2.1, h2.2.2⟩

lemma parseOne_ok_nodup (fs : List (String × XsdFile)) (path : String)
    (visited : List String) (m : SchemaModel)
    (h : (parseOne fs path visited).1 = Except.ok m) :
    keysNodup m.elements ∧ keysNodup m.complexTypes ∧
      keysNodup m.simpleTypes := by
  by_cases hv : path ∈ visited
  · rw [parseOne_visited fs path visited hv] at h
    have h2 : Except.ok (ε := String) emptyModel = Except.ok m := h
    injection h2 with h3
    subst h3
    refine ⟨?_, ?_, ?_⟩ <;> simp [emptyModel, keysNodup]
  · cases hf : mget fs path with
    | none =>
      rw [parseOne_notfound fs path visited hv hf] at h
      cases h
    | some f =>
      rw [(parseOne_found fs path visited f hv hf).1] at h
      injection h with h2
      subst h2
      exact assembleModel_nodup f _ _

/-- C5: In every SchemaModel produced by the parser, each key of the
elements, complexTypes and simpleTypes maps is bound at most once
(keysNodup); the include merge (mergeNoOverwrite) and the import merge
(mergeImportTypes) never overwrite an existing key — for every key already
present before the merge, its binding is unchanged afterward, so first
writer wins and local definitions shadow imported/included ones; and
imported types are additionally registered under pfx:name for every prefix
pfx in the supplied prefix list, so that both the bare key and the prefixed
key are present after the merge. -/
theorem c5_model_key_uniqueness_first_writer_wins :
    (∀ (α : Type) (m inc : List (String × α)) (k : String),
        mhas m k = true →
        mget (mergeNoOverwrite m inc) k = mget m k) ∧
    (∀ (α : Type) (m inc : List (String × α)) (prefixes : List String)
        (k : String), mhas m k = true →
        mget (mergeImportTypes m inc prefixes) k = mget m k) ∧
    (∀ (α : Type) (m inc : List (String × α)) (prefixes : List String)
        (k : String) (v : α) (pfx : String),
        (k, v) ∈ inc → pfx ∈ prefixes →
        mhas (mergeImportTypes m inc prefixes) k = true ∧
        mhas (mergeImportTypes m inc prefixes) (pfx ++ ":" ++ k) = true) ∧
    (∀ (fs : List (String × XsdFile)) (path : String)
        (visited : List String) (m : SchemaModel),
        (parseOne fs path visited).1 = Except.ok m →
        keysNodup m.elements ∧ keysNodup m.complexTypes ∧
          keysNodup m.simpleTypes) := by
  refine ⟨?_, ?_, ?_, ?_⟩
  · intro α m inc k h
    exact (mergeNoOverwrite_pres inc m k h).1
  · intro α m inc prefixes k h
    exact (mergeImportTypes_pres inc prefixes m k h).1
  · intro α m inc prefixes k v pfx h1 h2
    exact mergeImportTypes_registers inc prefixes m k v pfx h1 h2
  · exact parseOne_ok_nodup

/-- Witness for C5 at concrete inputs: a clashing include key keeps its
original binding, an imported type is registered bare and prefixed, and a
concrete parse result has duplicate-free maps. -/
theorem c5_witness :
    (mget (mergeNoOverwrite [("T", (1 : Nat))] [("T", 2), ("U", 3)]) "T"
        = mget [("T", (1 : Nat))] "T") ∧
    (mget (mergeImportTypes [("T", (1 : Nat))] [("T", 2)] ["p"]) "T"
        = mget [("T", (1 : Nat))] "T") ∧
    (mhas (mergeImportTypes ([] : List (String × Nat)) [("CT", 7)] ["p"])
        "CT" = true ∧
      mhas (mergeImportTypes ([] : List (String × Nat)) [("CT", 7)] ["p"])
        ("p" ++ ":" ++ "CT") = true) ∧
    (keysNodup emptyModel.elements ∧ keysNodup emptyModel.complexTypes ∧
      keysNodup emptyModel.simpleTypes) := by
  refine ⟨?_, ?_, ?_, ?_⟩
  · exact c5_model_key_uniqueness_first_writer_wins.1 Nat
      [("T", 1)] [("T", 2), ("U", 3)] "T" (by decide)
  · exact c5_model_key_uniqueness_first_writer_wins.2.1 Nat
      [("T", 1)] [("T", 2)] ["p"] "T" (by decide)
  · exact c5_model_key_uniqueness_first_writer_wins.2.2.1 Nat
      [] [("CT", 7)] ["p"] "CT" 7 "p" (by decide) (by decide)
  · exact c5_model_key_uniqueness_first_writer_wins.2.2.2
      [] "x" ["x"] emptyModel
      (by rw [parseOne_visited [] "x" ["x"] (by decide)])
